import Mathlib

/-!
# Weston `util.c`: spring integrator, zoom and fade animations, binding dispatch

A shallow embedding of `src/util.c` of the Weston compositor and a set of
theorems about it.

Modelling conventions.

* `double` fields of `struct weston_spring` are read as exact rationals
  (`ℚ`); rounding is not modelled.
* `uint32_t` values are natural numbers below `2 ^ 32`; subtraction and
  addition wrap explicitly (`u32_sub`, `% 2 ^ 32`).
* The `while` loop of `weston_spring_update` is a total function defined by
  well-founded recursion on the unsigned distance `msec - timestamp`.
* Intrusive `wl_list`s are Lean lists, head first, of the addresses of the
  structs linked in; pointers are natural numbers and `NULL` is `none`.
* Calls into code outside `util.c` (binding handlers, done-callbacks,
  `free`, `wl_keyboard_send_key`, `weston_compositor_schedule_repaint`) are
  recorded in ghost traces or counters.
-/

namespace Weston

/-! ## Spring integrator (`util.c`, lines 33-86) -/

/-- The `struct weston_spring` of `compositor.h`, as used by `util.c`. -/
structure weston_spring where
  k : ℚ
  friction : ℚ
  current : ℚ
  previous : ℚ
  target : ℚ
  timestamp : ℕ
deriving DecidableEq

/-- Unsigned 32-bit subtraction `a - b`, as computed on `uint32_t`. -/
def u32_sub (a b : ℕ) : ℕ := (a + 2 ^ 32 - b % 2 ^ 32) % 2 ^ 32

/-- The function `weston_spring_init` (lines 33-42): the timestamp is left as it was. -/
def weston_spring_init (spring : weston_spring) (k current target : ℚ) : weston_spring :=
  { spring with
    k := k
    friction := 400
    current := current
    previous := current
    target := target }

/-- The body of the `while` loop of `weston_spring_update` (lines 51-77). -/
def weston_spring_update_step (spring : weston_spring) : weston_spring :=
  let step : ℚ := 1 / 100
  let current : ℚ := spring.current
  let v : ℚ := current - spring.previous
  let force : ℚ := spring.k * (spring.target - current) / 10 +
    (spring.previous - current) - v * spring.friction
  { spring with
    current := current + (current - spring.previous) + force * step * step
    previous := current
    timestamp := (spring.timestamp + 4) % 2 ^ 32 }

/-- The function `weston_spring_update` (lines 44-79):
`while (4 < msec - spring->timestamp) { ... }`. -/
def weston_spring_update (spring : weston_spring) (msec : ℕ) : weston_spring :=
  if 4 < u32_sub msec spring.timestamp then
    weston_spring_update (weston_spring_update_step spring) msec
  else
    spring
termination_by u32_sub msec spring.timestamp
decreasing_by
  all_goals simp_wf
  all_goals simp only [weston_spring_update_step, u32_sub] at *
  all_goals omega

/-- Ghost counter: the number of iterations of the loop of
`weston_spring_update spring msec`. -/
def weston_spring_update_steps (spring : weston_spring) (msec : ℕ) : ℕ :=
  if 4 < u32_sub msec spring.timestamp then
    weston_spring_update_steps (weston_spring_update_step spring) msec + 1
  else
    0
termination_by u32_sub msec spring.timestamp
decreasing_by
  all_goals simp_wf
  all_goals simp only [weston_spring_update_step, u32_sub] at *
  all_goals omega

/-- The function `weston_spring_done` (lines 81-86). -/
def weston_spring_done (spring : weston_spring) : Bool :=
  decide (|spring.previous - spring.target| < 2 / 10000) &&
    decide (|spring.current - spring.target| < 2 / 10000)

/-- A sequence of calls `update(m1); update(m2); ...` on one spring. -/
def spring_updates (spring : weston_spring) (msecs : List ℕ) : weston_spring :=
  msecs.foldl weston_spring_update spring

/-- Ghost counter: the cumulative number of loop iterations of a sequence of calls. -/
def spring_updates_steps : weston_spring → List ℕ → ℕ
  | _, [] => 0
  | spring, m :: ms =>
    weston_spring_update_steps spring m + spring_updates_steps (weston_spring_update spring m) ms

/-- The spring of an animation controller as set up by `weston_zoom_run` (lines 181-183)
and `weston_fade_run` (lines 413-415): `weston_spring_init(&spring, 200.0, 0.0, 1.0)`,
then `friction = 700` and `timestamp = now`. -/
def controller_spring (spring : weston_spring) (now : ℕ) : weston_spring :=
  { weston_spring_init spring 200 0 1 with
    friction := 700
    timestamp := now }

/-- The integration step as the specification words it:
`force = k*(target - current)/10 - v*friction`, `current' = current + v + force*0.01²`,
`previous = current`, `timestamp += 4`. -/
def spec_spring_step (spring : weston_spring) : weston_spring :=
  let v : ℚ := spring.current - spring.previous
  let force : ℚ := spring.k * (spring.target - spring.current) / 10 - v * spring.friction
  { spring with
    current := spring.current + v + force * (1 / 100) ^ 2
    previous := spring.current
    timestamp := (spring.timestamp + 4) % 2 ^ 32 }

/-- The calls `update(s, 4), update(s, 8), ..., update(s, 4*j)` of the settling scenario. -/
def scenario_calls (j : ℕ) : List ℕ := (List.range j).map (fun i => 4 * (i + 1))

/-- A quadratic form in the distances of `current` and `previous` from the target `1`.
For `k = 200`, `friction = 700` one loop iteration multiplies it by `0.9299`; it is used to
bound the spring's distance from the target for all later steps. -/
def controller_energy (s : weston_spring) : ℚ :=
  (1 - s.current) ^ 2 - 19279 / 10000 * (1 - s.current) * (1 - s.previous) +
    9299 / 10000 * (1 - s.previous) ^ 2

/-! ## Key bindings (`util.c`, lines 197-328) -/

/-- What `keyboard->grab` points to: the keyboard's own `default_grab`, a
`struct binding_keyboard_grab` allocated by `install_binding_grab` (with its `key`), or a
grab owned by somebody else. -/
inductive keyboard_grab where
  | default_grab
  | binding_grab (key : ℕ)
  | foreign_grab (id : ℕ)
deriving DecidableEq

/-- The fields of `struct wl_keyboard` that `util.c` reads or writes. -/
structure wl_keyboard where
  grab : keyboard_grab
  focus_resource : Option ℕ
deriving DecidableEq

/-- The fields of `struct wl_seat` that `util.c` reads. -/
structure wl_seat where
  keyboard : wl_keyboard
deriving DecidableEq

/-- The fields of `struct weston_seat` that `util.c` reads. -/
structure weston_seat where
  seat : wl_seat
  modifier_state : ℕ
deriving DecidableEq

/-- The `struct weston_binding` (lines 197-205), without its list link; `handler` is the
function pointer and `data` the opaque pointer, both as addresses. -/
structure weston_binding where
  key : ℕ
  button : ℕ
  axis : ℕ
  modifier : ℕ
  handler : ℕ
  data : ℕ
deriving DecidableEq

/-- The part of `struct weston_compositor` used by the binding code: `binding_list`,
head first. -/
structure weston_compositor where
  binding_list : List weston_binding

/-- What a function of type `weston_binding_handler_t` does when called with
`(seat, time, key, button, axis, value, data)`: it may change the seat. -/
abbrev binding_handler := weston_seat → ℕ → ℕ → ℕ → ℕ → ℤ → ℕ → weston_seat

/-- Ghost record of one call `b->handler(&seat->seat, time, key, button, axis, value, b->data)`. -/
structure handler_call where
  handler : ℕ
  time : ℕ
  key : ℕ
  button : ℕ
  axis : ℕ
  value : ℤ
  data : ℕ
deriving DecidableEq

/-- The seat together with the ghost trace of handler calls made so far. -/
structure binding_state where
  seat : weston_seat
  calls : List handler_call

/-- The ghost record of the call made for binding `b` on an event. -/
def call_of (time key button axis : ℕ) (value : ℤ) (b : weston_binding) : handler_call :=
  { handler := b.handler, time := time, key := key, button := button, axis := axis,
    value := value, data := b.data }

/-- The function `weston_compositor_add_binding` (lines 207-227), allocation succeeding:
`wl_list_insert(compositor->binding_list.prev, &binding->link)` links the new binding
in at the tail of the list. -/
def weston_compositor_add_binding (compositor : weston_compositor)
    (key button axis modifier handler data : ℕ) : weston_compositor :=
  { compositor with
    binding_list := compositor.binding_list ++
      [{ key := key, button := button, axis := axis, modifier := modifier,
         handler := handler, data := data }] }

/-- The function `install_binding_grab` (lines 293-303): `wl_keyboard_start_grab` makes
`keyboard->grab` point to the new `binding_keyboard_grab` for `key`. -/
def install_binding_grab (seat : weston_seat) (_time key : ℕ) : weston_seat :=
  { seat with seat := { seat.seat with
      keyboard := { seat.seat.keyboard with grab := keyboard_grab.binding_grab key } } }

/-- The body of the `wl_list_for_each` loop of `weston_compositor_run_binding`
(lines 314-326) for one binding `b`. -/
def run_binding_body (handlers : ℕ → binding_handler) (time key button axis : ℕ) (value : ℤ)
    (st : binding_state) (b : weston_binding) : binding_state :=
  if b.key = key ∧ b.button = button ∧ b.axis = axis ∧
      b.modifier = st.seat.modifier_state ∧ value ≠ 0 then
    let seat1 := handlers b.handler st.seat time key button axis value b.data
    let calls1 := st.calls ++ [call_of time key button axis value b]
    if b.key ≠ 0 ∧ seat1.seat.keyboard.grab = keyboard_grab.default_grab then
      { seat := install_binding_grab seat1 time key, calls := calls1 }
    else
      { seat := seat1, calls := calls1 }
  else
    st

/-- The function `weston_compositor_run_binding` (lines 305-328): the bindings are visited
from the head of `binding_list`. -/
def weston_compositor_run_binding (handlers : ℕ → binding_handler)
    (compositor : weston_compositor) (st : binding_state)
    (time key button axis : ℕ) (value : ℤ) : binding_state :=
  compositor.binding_list.foldl (run_binding_body handlers time key button axis value) st

/-- The test of line 314-315 for a binding against an event and a modifier state. -/
def binding_matches (key button axis modifier_state : ℕ) (b : weston_binding) : Bool :=
  decide (b.key = key ∧ b.button = button ∧ b.axis = axis ∧ b.modifier = modifier_state)

/-- Ghost companion of `run_binding_body`: whether the iteration for binding `b` reaches
the call `install_binding_grab(&seat->seat, time, key)` of line 325. -/
def run_binding_body_installs (handlers : ℕ → binding_handler) (time key button axis : ℕ)
    (value : ℤ) (st : binding_state) (b : weston_binding) : Bool :=
  if b.key = key ∧ b.button = button ∧ b.axis = axis ∧
      b.modifier = st.seat.modifier_state ∧ value ≠ 0 then
    let seat1 := handlers b.handler st.seat time key button axis value b.data
    decide (b.key ≠ 0 ∧ seat1.seat.keyboard.grab = keyboard_grab.default_grab)
  else
    false

/-- Ghost trace of `weston_compositor_run_binding` over a list of bindings: the bindings
whose iteration called `install_binding_grab`, in order. -/
def run_binding_installers (handlers : ℕ → binding_handler) (time key button axis : ℕ)
    (value : ℤ) : List weston_binding → binding_state → List weston_binding
  | [], _ => []
  | b :: bs, st =>
    (if run_binding_body_installs handlers time key button axis value st b then [b] else []) ++
      run_binding_installers handlers time key button axis value bs
        (run_binding_body handlers time key button axis value st b)

/-! ## The binding grab (`util.c`, lines 245-291) -/

/-- Ghost record of one call `wl_keyboard_send_key(resource, serial, time, key, state)`. -/
structure key_event where
  resource : ℕ
  serial : ℕ
  time : ℕ
  key : ℕ
  state : ℕ
deriving DecidableEq

/-- The keyboard, the serial counter of the display, and the ghost trace of key events
sent to clients so far. -/
structure keyboard_world where
  keyboard : wl_keyboard
  serial : ℕ
  sent : List key_event
deriving DecidableEq

/-- Modelled from the spec: `wl_display_next_serial` of the event-dispatch library, absent
from `src/`; each call yields the next value of the display's `uint32_t` serial counter
("a monotonically increasing serial number obtained from the display connection"). -/
def wl_display_next_serial (serial : ℕ) : ℕ := (serial + 1) % 2 ^ 32

/-- Modelled from the spec: `wl_keyboard_end_grab` of the event-dispatch library, absent
from `src/`; "the device's input grab is released back to its default handler". -/
def wl_keyboard_end_grab (keyboard : wl_keyboard) : wl_keyboard :=
  { keyboard with grab := keyboard_grab.default_grab }

/-- The function `binding_key` (lines 250-271) for the `binding_keyboard_grab` whose `key`
field is `b_key`. -/
def binding_key (b_key : ℕ) (w : keyboard_world) (time key state : ℕ) : keyboard_world :=
  let resource := w.keyboard.focus_resource
  if key = b_key then
    if state = 0 then
      { w with keyboard := wl_keyboard_end_grab w.keyboard }
    else
      w
  else
    match resource with
    | some r =>
      let serial := wl_display_next_serial w.serial
      { w with serial := serial, sent := w.sent ++ [⟨r, serial, time, key, state⟩] }
    | none => w

/-- Delivery of a key event to the keyboard's current grab,
`grab->interface->key(grab, time, key, state)`: for a binding grab the interface is
`binding_grab` (lines 288-291) and the call is `binding_key`; the key functions of other
grabs are not part of `util.c`. -/
def keyboard_grab_key (w : keyboard_world) (time key state : ℕ) : Option keyboard_world :=
  match w.keyboard.grab with
  | keyboard_grab.binding_grab b_key => some (binding_key b_key w time key state)
  | _ => none

/-! ## Zoom and fade animations (`util.c`, lines 88-195 and 352-427) -/

/-- One operation applied to a transform matrix. -/
inductive matrix_op where
  | translate (x y z : ℚ)
  | scale (x y z : ℚ)
deriving DecidableEq

/-- Modelled from the spec: the transform-matrix library (`weston_matrix_init`,
`weston_matrix_translate`, `weston_matrix_scale`), absent from `src/`; a matrix is kept as
the operations applied to it since `weston_matrix_init`, oldest first. -/
abbrev weston_matrix := List matrix_op

/-- The fields of `struct weston_surface` that `util.c` reads or writes. The two lists
hold, head first, the addresses of the controllers whose `transform.link` and
`listener.link` are linked in. -/
structure weston_surface where
  alpha : ℚ
  geometry_dirty : Bool
  geometry_width : ℚ
  geometry_height : ℚ
  transformation_list : List ℕ
  destroy_listeners : List ℕ
deriving DecidableEq

/-- The `struct weston_zoom` (lines 88-97); its three list links are represented by the
address of the struct in the respective lists, `done = none` is the null pointer. -/
structure weston_zoom where
  surface : ℕ
  spring : weston_spring
  transform_matrix : weston_matrix
  start : ℚ
  stop : ℚ
  done : Option ℕ
  data : ℕ
deriving DecidableEq

/-- The `struct weston_fade` (lines 99-106). -/
structure weston_fade where
  surface : ℕ
  spring : weston_spring
  done : Option ℕ
  data : ℕ
deriving DecidableEq

/-- Ghost record of one call `done(controller, data)` of a done-callback. -/
structure done_call where
  done : ℕ
  controller : ℕ
  data : ℕ
deriving DecidableEq

/-- The surfaces by address, the compositor's `animation_list` (head first, by controller
address), and the ghost traces: the number of calls of
`weston_compositor_schedule_repaint`, the done-callbacks called and the controllers passed
to `free`, in order. What a done-callback does itself is outside `util.c`. -/
structure animation_world where
  surfaces : ℕ → weston_surface
  animation_list : List ℕ
  repaints : ℕ
  done_calls : List done_call
  freed : List ℕ

/-- The function `weston_zoom_destroy` (lines 108-118) for the zoom at address `a`;
`wl_list_remove` unlinks the controller from a list. -/
def weston_zoom_destroy (a : ℕ) (zoom : weston_zoom) (w : animation_world) : animation_world :=
  let es := w.surfaces zoom.surface
  { surfaces := Function.update w.surfaces zoom.surface
      { es with
        destroy_listeners := es.destroy_listeners.erase a
        transformation_list := es.transformation_list.erase a
        geometry_dirty := true }
    animation_list := w.animation_list.erase a
    repaints := w.repaints
    done_calls := w.done_calls ++
      (match zoom.done with
       | some f => [⟨f, a, zoom.data⟩]
       | none => [])
    freed := w.freed ++ [a] }

/-- The function `weston_fade_destroy` (lines 353-362) for the fade at address `a`. -/
def weston_fade_destroy (a : ℕ) (fade : weston_fade) (w : animation_world) : animation_world :=
  let es := w.surfaces fade.surface
  { surfaces := Function.update w.surfaces fade.surface
      { es with
        destroy_listeners := es.destroy_listeners.erase a
        geometry_dirty := true }
    animation_list := w.animation_list.erase a
    repaints := w.repaints
    done_calls := w.done_calls ++
      (match fade.done with
       | some f => [⟨f, a, fade.data⟩]
       | none => [])
    freed := w.freed ++ [a] }

/-- The function `weston_zoom_frame` (lines 129-162) for the zoom at address `a`; the
result is the content of the struct (as last written) and the world. -/
def weston_zoom_frame (a : ℕ) (zoom : weston_zoom) (w : animation_world) (msecs : ℕ) :
    weston_zoom × animation_world :=
  let zoom1 : weston_zoom := { zoom with spring := weston_spring_update zoom.spring msecs }
  if weston_spring_done zoom1.spring then
    (zoom1, weston_zoom_destroy a zoom1 w)
  else
    let es := w.surfaces zoom1.surface
    let scale : ℚ := zoom1.start + (zoom1.stop - zoom1.start) * zoom1.spring.current
    let matrix : weston_matrix :=
      [matrix_op.translate (-(1 / 2) * es.geometry_width) (-(1 / 2) * es.geometry_height) 0,
       matrix_op.scale scale scale scale,
       matrix_op.translate (1 / 2 * es.geometry_width) (1 / 2 * es.geometry_height) 0]
    let alpha : ℚ := if zoom1.spring.current > 1 then 1 else zoom1.spring.current
    ({ zoom1 with transform_matrix := matrix },
     { w with
       surfaces := Function.update w.surfaces zoom1.surface
         { es with alpha := alpha, geometry_dirty := true }
       repaints := w.repaints + 1 })

/-- The function `weston_fade_frame` (lines 373-398) for the fade at address `a`. -/
def weston_fade_frame (a : ℕ) (fade : weston_fade) (w : animation_world) (msecs : ℕ) :
    weston_fade × animation_world :=
  let fade1 : weston_fade := { fade with spring := weston_spring_update fade.spring msecs }
  if weston_spring_done fade1.spring then
    (fade1, weston_fade_destroy a fade1 w)
  else
    let es := w.surfaces fade1.surface
    let fade_factor : ℚ :=
      if fade1.spring.current > 1 then 1
      else if fade1.spring.current < 0 then 0
      else fade1.spring.current
    (fade1,
     { w with
       surfaces := Function.update w.surfaces fade1.surface
         { es with alpha := fade_factor, geometry_dirty := true }
       repaints := w.repaints + 1 })

/-- Linking `a` in with `wl_signal_add(&surface->surface.resource.destroy_signal, ...)`:
the listener goes to the tail of the signal's listener list. -/
def surface_add_destroy_listener (w : animation_world) (surface a : ℕ) : animation_world :=
  { w with
    surfaces := Function.update w.surfaces surface
      { w.surfaces surface with
        destroy_listeners := (w.surfaces surface).destroy_listeners ++ [a] } }

/-- The function `weston_zoom_run` (lines 164-195), allocation succeeding: `a` is the
address returned by `malloc`, `mem` the content of the fresh memory and `now` the value of
`weston_compositor_get_time()`. `wl_list_insert(&list, &link)` links in at the head. -/
def weston_zoom_run (a : ℕ) (mem : weston_zoom) (w : animation_world) (surface : ℕ)
    (start stop : ℚ) (done : Option ℕ) (data now : ℕ) : weston_zoom × animation_world :=
  let zoom : weston_zoom :=
    { mem with surface := surface, done := done, data := data, start := start, stop := stop }
  let w1 : animation_world :=
    { w with
      surfaces := Function.update w.surfaces surface
        { w.surfaces surface with
          transformation_list := a :: (w.surfaces surface).transformation_list } }
  let zoom1 : weston_zoom := { zoom with spring := controller_spring zoom.spring now }
  let r := weston_zoom_frame a zoom1 w1 zoom1.spring.timestamp
  let w2 := surface_add_destroy_listener r.2 surface a
  (r.1, { w2 with animation_list := a :: w2.animation_list })

/-- The function `weston_fade_run` (lines 400-427), allocation succeeding. -/
def weston_fade_run (a : ℕ) (mem : weston_fade) (w : animation_world) (surface : ℕ)
    (done : Option ℕ) (data now : ℕ) : weston_fade × animation_world :=
  let fade : weston_fade := { mem with surface := surface, done := done, data := data }
  let fade1 : weston_fade := { fade with spring := controller_spring fade.spring now }
  let r := weston_fade_frame a fade1 w fade1.spring.timestamp
  let w2 := surface_add_destroy_listener r.2 surface a
  (r.1, { w2 with animation_list := a :: w2.animation_list })

/-- A live animation controller, as found behind a listener or animation link. -/
inductive animation_controller where
  | zoom (z : weston_zoom)
  | fade (f : weston_fade)
deriving DecidableEq

/-- The `notify` function of the destroy listener at address `l`:
`handle_zoom_surface_destroy` (lines 120-127) or `handle_fade_surface_destroy`
(lines 364-371) when a zoom or fade lives there; listeners of other owners are outside
`util.c` and leave this state alone. -/
def destroy_listener_notify (controllers : ℕ → Option animation_controller)
    (w : animation_world) (l : ℕ) : animation_world :=
  match controllers l with
  | some (animation_controller.zoom z) => weston_zoom_destroy l z w
  | some (animation_controller.fade f) => weston_fade_destroy l f w
  | none => w

/-- Modelled from the spec: firing the destroy notification of a surface
(`wl_signal_emit` on its `destroy_signal`), absent from `src/`; every listener linked in
when the signal fires is notified once, in list order, with removal-safe iteration. -/
def surface_destroy_emit (controllers : ℕ → Option animation_controller)
    (w : animation_world) (surface : ℕ) : animation_world :=
  (w.surfaces surface).destroy_listeners.foldl (destroy_listener_notify controllers) w

/-- The surface animated by a controller. -/
def controller_surface : animation_controller → ℕ
  | animation_controller.zoom z => z.surface
  | animation_controller.fade f => f.surface

/-- The done-callback of a controller (`none` is the null pointer). -/
def controller_done : animation_controller → Option ℕ
  | animation_controller.zoom z => z.done
  | animation_controller.fade f => f.done

/-- The opaque data handed to the done-callback of a controller. -/
def controller_data : animation_controller → ℕ
  | animation_controller.zoom z => z.data
  | animation_controller.fade f => f.data

/-! ## Theorems: spring integrator -/

theorem u32_sub_step (msec t : ℕ) (h : 4 < u32_sub msec t) :
    u32_sub msec ((t + 4) % 2 ^ 32) = u32_sub msec t - 4 := by
  unfold u32_sub at *
  omega

theorem weston_spring_update_pos (s : weston_spring) (msec : ℕ)
    (h : 4 < u32_sub msec s.timestamp) :
    weston_spring_update s msec = weston_spring_update (weston_spring_update_step s) msec := by
  rw [weston_spring_update, if_pos h]

theorem weston_spring_update_neg (s : weston_spring) (msec : ℕ)
    (h : ¬ 4 < u32_sub msec s.timestamp) : weston_spring_update s msec = s := by
  rw [weston_spring_update, if_neg h]

theorem weston_spring_update_steps_pos (s : weston_spring) (msec : ℕ)
    (h : 4 < u32_sub msec s.timestamp) :
    weston_spring_update_steps s msec =
      weston_spring_update_steps (weston_spring_update_step s) msec + 1 := by
  rw [weston_spring_update_steps, if_pos h]

theorem weston_spring_update_steps_neg (s : weston_spring) (msec : ℕ)
    (h : ¬ 4 < u32_sub msec s.timestamp) : weston_spring_update_steps s msec = 0 := by
  rw [weston_spring_update_steps, if_neg h]

theorem step_timestamp (s : weston_spring) :
    (weston_spring_update_step s).timestamp = (s.timestamp + 4) % 2 ^ 32 := rfl

/-- Induction along the iterations of the loop: a property that holds when the loop
exits and is carried back over one iteration holds for every spring. -/
theorem spring_loop_induction (msec : ℕ) (P : weston_spring → Prop)
    (hexit : ∀ s, ¬ 4 < u32_sub msec s.timestamp → P s)
    (hiter : ∀ s, 4 < u32_sub msec s.timestamp → P (weston_spring_update_step s) → P s)
    (s : weston_spring) : P s := by
  generalize hd : u32_sub msec s.timestamp = d
  induction d using Nat.strong_induction_on generalizing s with
  | _ d ih =>
    by_cases h : 4 < u32_sub msec s.timestamp
    · refine hiter s h (ih (u32_sub msec (weston_spring_update_step s).timestamp) ?_ _ rfl)
      rw [step_timestamp, u32_sub_step msec s.timestamp h]
      omega
    · exact hexit s h

theorem weston_spring_update_eq_iterate (s : weston_spring) (msec : ℕ) :
    weston_spring_update s msec =
      weston_spring_update_step^[weston_spring_update_steps s msec] s := by
  induction s using spring_loop_induction msec with
  | hexit s h =>
    rw [weston_spring_update_neg s msec h, weston_spring_update_steps_neg s msec h]
    rfl
  | hiter s h ih =>
    rw [weston_spring_update_pos s msec h, weston_spring_update_steps_pos s msec h, ih,
      Function.iterate_succ_apply]

theorem weston_spring_update_steps_eq (s : weston_spring) (msec : ℕ) :
    weston_spring_update_steps s msec = (u32_sub msec s.timestamp - 1) / 4 := by
  induction s using spring_loop_induction msec with
  | hexit s h =>
    rw [weston_spring_update_steps_neg s msec h]
    omega
  | hiter s h ih =>
    rw [weston_spring_update_steps_pos s msec h, ih, step_timestamp,
      u32_sub_step msec s.timestamp h]
    omega

theorem u32_sub_after_update (s : weston_spring) (m1 m2 : ℕ)
    (h : u32_sub m1 s.timestamp ≤ u32_sub m2 s.timestamp) :
    u32_sub m2 (weston_spring_update s m1).timestamp + 4 * weston_spring_update_steps s m1 =
      u32_sub m2 s.timestamp := by
  induction s using spring_loop_induction m1 with
  | hexit s h1 =>
    rw [weston_spring_update_neg s m1 h1, weston_spring_update_steps_neg s m1 h1]
    rfl
  | hiter s h1 ih =>
    have h2 : 4 < u32_sub m2 s.timestamp := lt_of_lt_of_le h1 h
    have e1 := u32_sub_step m1 s.timestamp h1
    have e2 := u32_sub_step m2 s.timestamp h2
    rw [weston_spring_update_pos s m1 h1, weston_spring_update_steps_pos s m1 h1]
    have := ih (by rw [step_timestamp, e1, e2]; omega)
    rw [step_timestamp, e2] at this
    omega

theorem weston_spring_update_update (s : weston_spring) (m1 m2 : ℕ)
    (h : u32_sub m1 s.timestamp ≤ u32_sub m2 s.timestamp) :
    weston_spring_update (weston_spring_update s m1) m2 = weston_spring_update s m2 := by
  induction s using spring_loop_induction m1 with
  | hexit s h1 => rw [weston_spring_update_neg s m1 h1]
  | hiter s h1 ih =>
    have h2 : 4 < u32_sub m2 s.timestamp := lt_of_lt_of_le h1 h
    have e1 := u32_sub_step m1 s.timestamp h1
    have e2 := u32_sub_step m2 s.timestamp h2
    rw [weston_spring_update_pos s m1 h1, weston_spring_update_pos s m2 h2]
    exact ih (by rw [step_timestamp, e1, e2]; omega)

theorem weston_spring_update_steps_add (s : weston_spring) (m1 m2 : ℕ)
    (h : u32_sub m1 s.timestamp ≤ u32_sub m2 s.timestamp) :
    weston_spring_update_steps s m1 + weston_spring_update_steps (weston_spring_update s m1) m2 =
      weston_spring_update_steps s m2 := by
  have h1 := u32_sub_after_update s m1 m2 h
  have h2 := u32_sub_after_update s m1 m1 le_rfl
  rw [weston_spring_update_steps_eq (weston_spring_update s m1) m2,
    weston_spring_update_steps_eq s m2]
  rw [weston_spring_update_steps_eq s m1] at *
  omega

theorem spring_updates_last (ms : List ℕ) (s : weston_spring) (hne : ms ≠ [])
    (hs : ms.Pairwise (fun a b => u32_sub a s.timestamp ≤ u32_sub b s.timestamp)) :
    spring_updates s ms = weston_spring_update s (ms.getLast hne) ∧
      spring_updates_steps s ms = weston_spring_update_steps s (ms.getLast hne) := by
  induction ms generalizing s with
  | nil => exact absurd rfl hne
  | cons m1 rest ih =>
    cases rest with
    | nil => simp [spring_updates, spring_updates_steps]
    | cons m2 rest =>
      rw [List.pairwise_cons] at hs
      obtain ⟨h1, hrest⟩ := hs
      have hlast : u32_sub m1 s.timestamp ≤
          u32_sub ((m2 :: rest).getLast (List.cons_ne_nil _ _)) s.timestamp :=
        h1 _ (List.getLast_mem _)
      have hrest2 : (m2 :: rest).Pairwise (fun a b =>
          u32_sub a (weston_spring_update s m1).timestamp ≤
            u32_sub b (weston_spring_update s m1).timestamp) := by
        refine List.Pairwise.imp_of_mem ?_ hrest
        intro a b ha hb hab
        have ea := u32_sub_after_update s m1 a (h1 a ha)
        have eb := u32_sub_after_update s m1 b (h1 b hb)
        omega
      obtain ⟨ih1, ih2⟩ := ih (weston_spring_update s m1) (List.cons_ne_nil _ _) hrest2
      rw [List.getLast_cons (List.cons_ne_nil m2 rest)]
      constructor
      · have : spring_updates s (m1 :: m2 :: rest) =
            spring_updates (weston_spring_update s m1) (m2 :: rest) := rfl
        rw [this, ih1, weston_spring_update_update s m1 _ hlast]
      · have : spring_updates_steps s (m1 :: m2 :: rest) = weston_spring_update_steps s m1 +
            spring_updates_steps (weston_spring_update s m1) (m2 :: rest) := rfl
        rw [this, ih2, weston_spring_update_steps_add s m1 _ hlast]

/-- Clock values `t0 ≤ M1 ≤ M2 ≤ ...` that stay within `2 ^ 32` of `t0`, passed as
`uint32_t`, have non-decreasing unsigned distances from `t0`. -/
theorem chain_pairwise_u32_sub (t0 : ℕ) (ht : t0 < 2 ^ 32) (Ms : List ℕ)
    (hchain : List.Chain (fun a b => a ≤ b) t0 Ms) (hspan : ∀ M ∈ Ms, M < t0 + 2 ^ 32) :
    (Ms.map (fun M => M % 2 ^ 32)).Pairwise (fun a b => u32_sub a t0 ≤ u32_sub b t0) := by
  have hp : (t0 :: Ms).Pairwise (fun a b => a ≤ b) := List.chain_iff_pairwise.mp hchain
  rw [List.pairwise_cons] at hp
  obtain ⟨h0, hp⟩ := hp
  rw [List.pairwise_map]
  refine List.Pairwise.imp_of_mem ?_ hp
  intro a b ha hb hab
  have ha0 := h0 a ha
  have hb0 := h0 b hb
  have ha1 := hspan a ha
  have hb1 := hspan b hb
  unfold u32_sub
  omega

theorem u32_sub_of_clock (t0 M : ℕ) (ht : t0 < 2 ^ 32) (h0 : t0 ≤ M) (h1 : M < t0 + 2 ^ 32) :
    u32_sub (M % 2 ^ 32) t0 = M - t0 := by
  unfold u32_sub
  omega

theorem getLast_map_mod (Ms : List ℕ) (hne : Ms ≠ [])
    (hne2 : Ms.map (fun M => M % 2 ^ 32) ≠ []) :
    (Ms.map (fun M => M % 2 ^ 32)).getLast hne2 = Ms.getLast hne % 2 ^ 32 := by
  rw [List.getLast_map]

/-! ### C1 -/

/-- Counterexample to C1 as stated: on the spring `k = 200, friction = 700, current = 1,
previous = 0, target = 1, timestamp = 0` the call `update(8)` performs exactly one step,
and that step yields `current = 1.9299`, whereas the formula of the claim
(`force = k*(target - current)/10 - v*friction`) yields `1.93`. -/
theorem c1_step_formula_counterexample :
    weston_spring_update_steps ⟨200, 700, 1, 0, 1, 0⟩ 8 = 1 ∧
      (weston_spring_update ⟨200, 700, 1, 0, 1, 0⟩ 8).current = 19299 / 10000 ∧
      (spec_spring_step ⟨200, 700, 1, 0, 1, 0⟩).current = 193 / 100 ∧
      weston_spring_update ⟨200, 700, 1, 0, 1, 0⟩ 8 ≠ spec_spring_step ⟨200, 700, 1, 0, 1, 0⟩ := by
  have hsteps : weston_spring_update_steps ⟨200, 700, 1, 0, 1, 0⟩ 8 = 1 := by
    rw [weston_spring_update_steps_eq]
    norm_num [u32_sub]
  have hcur : (weston_spring_update ⟨200, 700, 1, 0, 1, 0⟩ 8).current = 19299 / 10000 := by
    rw [weston_spring_update_eq_iterate, hsteps]
    norm_num [weston_spring_update_step]
  have hspec : (spec_spring_step ⟨200, 700, 1, 0, 1, 0⟩).current = 193 / 100 := by
    norm_num [spec_spring_step]
  refine ⟨hsteps, hcur, hspec, ?_⟩
  intro h
  rw [h, hspec] at hcur
  norm_num at hcur

/-- C1 (amended): `weston_spring_update` is the iteration, once per step taken, of the map
sending `(current, previous, timestamp)` to
`(current + v + force*0.01², current, (timestamp + 4) mod 2^32)` with `v = current - previous`
and `force = k*(target - current)/10 + (previous - current) - v*friction`, leaving `k`,
`friction` and `target` unchanged. -/
theorem c1_step_formula (s : weston_spring) (msec : ℕ) :
    weston_spring_update s msec =
      (fun x : weston_spring =>
        ({ k := x.k
           friction := x.friction
           current := x.current + (x.current - x.previous) +
             (x.k * (x.target - x.current) / 10 + (x.previous - x.current) -
               (x.current - x.previous) * x.friction) * (1 / 100) ^ 2
           previous := x.current
           target := x.target
           timestamp := (x.timestamp + 4) % 2 ^ 32 } : weston_spring))^[
        weston_spring_update_steps s msec] s := by
  rw [weston_spring_update_eq_iterate]
  congr 1
  funext x
  simp only [weston_spring_update_step]
  congr 1
  ring

/-! ### C2 -/

/-- C2: for a spring with timestamp `t0` and clock values `t0 ≤ M1 ≤ ... ≤ Mn` with
`Mn - t0 < 2^32`, each passed as a `uint32_t`, the calls `update(M1), ..., update(Mn)` in
turn leave the spring in exactly the state of the single call `update(Mn)`. -/
theorem c2_call_granularity (s : weston_spring) (Ms : List ℕ) (hne : Ms ≠ [])
    (ht : s.timestamp < 2 ^ 32)
    (hchain : List.Chain (fun a b => a ≤ b) s.timestamp Ms)
    (hspan : ∀ M ∈ Ms, M < s.timestamp + 2 ^ 32) :
    spring_updates s (Ms.map (fun M => M % 2 ^ 32)) =
      weston_spring_update s (Ms.getLast hne % 2 ^ 32) := by
  have hne2 : Ms.map (fun M => M % 2 ^ 32) ≠ [] := by simpa using hne
  have h := (spring_updates_last _ s hne2
    (chain_pairwise_u32_sub s.timestamp ht Ms hchain hspan)).1
  rw [h, getLast_map_mod Ms hne hne2]

/-- Witness for C2: a spring at timestamp `2^32 - 6` updated at clock values that run past
the 32-bit wrap. -/
theorem c2_call_granularity_witness :
    spring_updates ⟨200, 700, 0, 0, 1, 4294967290⟩
        ([4294967295, 4294967300, 4294967310].map (fun M => M % 2 ^ 32)) =
      weston_spring_update ⟨200, 700, 0, 0, 1, 4294967290⟩
        ([4294967295, 4294967300, 4294967310].getLast (by simp) % 2 ^ 32) :=
  c2_call_granularity ⟨200, 700, 0, 0, 1, 4294967290⟩ [4294967295, 4294967300, 4294967310]
    (by simp) (by norm_num) (by simp) (by simp)

/-! ### C3 -/

/-- Counterexample to C3 as stated: from timestamp `0` the single call `update(4)` performs
no step, while `floor((4 - 0)/4) = 1`. -/
theorem c3_step_count_counterexample :
    spring_updates_steps ⟨200, 700, 0, 0, 1, 0⟩ [4] = 0 ∧
      spring_updates_steps ⟨200, 700, 0, 0, 1, 0⟩ [4] ≠
        (4 - (⟨200, 700, 0, 0, 1, 0⟩ : weston_spring).timestamp) / 4 := by
  have h : spring_updates_steps ⟨200, 700, 0, 0, 1, 0⟩ [4] = 0 := by
    simp only [spring_updates_steps, weston_spring_update_steps_eq]
    norm_num [u32_sub]
  refine ⟨h, ?_⟩
  rw [h]
  norm_num

/-- C3 (amended): for a spring with timestamp `t0` and calls at clock values
`t0 ≤ M1 ≤ ... ≤ Mn = now` with `now - t0 < 2^32`, the cumulative number of 4 ms steps is
`floor((now - t0 - 1)/4)` when `now > t0` and `0` when `now = t0` (subtraction on `ℕ` is
truncated), independent of the intermediate calls. -/
theorem c3_step_count (s : weston_spring) (Ms : List ℕ) (hne : Ms ≠ [])
    (ht : s.timestamp < 2 ^ 32)
    (hchain : List.Chain (fun a b => a ≤ b) s.timestamp Ms)
    (hspan : ∀ M ∈ Ms, M < s.timestamp + 2 ^ 32) :
    spring_updates_steps s (Ms.map (fun M => M % 2 ^ 32)) =
      (Ms.getLast hne - s.timestamp - 1) / 4 := by
  have hne2 : Ms.map (fun M => M % 2 ^ 32) ≠ [] := by simpa using hne
  have h := (spring_updates_last _ s hne2
    (chain_pairwise_u32_sub s.timestamp ht Ms hchain hspan)).2
  have hp : (s.timestamp :: Ms).Pairwise (fun a b => a ≤ b) := List.chain_iff_pairwise.mp hchain
  rw [List.pairwise_cons] at hp
  rw [h, getLast_map_mod Ms hne hne2, weston_spring_update_steps_eq,
    u32_sub_of_clock s.timestamp _ ht (hp.1 _ (List.getLast_mem hne))
      (hspan _ (List.getLast_mem hne))]

/-- Witness for C3 (amended): calls at `5, 8, 13` from timestamp `0`. -/
theorem c3_step_count_witness :
    spring_updates_steps ⟨200, 700, 0, 0, 1, 0⟩ ([5, 8, 13].map (fun M => M % 2 ^ 32)) =
      ([5, 8, 13].getLast (by simp) - (⟨200, 700, 0, 0, 1, 0⟩ : weston_spring).timestamp - 1) / 4 :=
  c3_step_count ⟨200, 700, 0, 0, 1, 0⟩ [5, 8, 13] (by simp) (by norm_num) (by simp) (by simp)

/-! ### C4 -/

theorem weston_spring_update_timestamp (s : weston_spring) (msec : ℕ)
    (ht : s.timestamp < 2 ^ 32) :
    (weston_spring_update s msec).timestamp =
      (s.timestamp + 4 * weston_spring_update_steps s msec) % 2 ^ 32 := by
  induction s using spring_loop_induction msec with
  | hexit s h =>
    rw [weston_spring_update_neg s msec h, weston_spring_update_steps_neg s msec h]
    omega
  | hiter s h ih =>
    have hlt : (weston_spring_update_step s).timestamp < 2 ^ 32 := by
      rw [step_timestamp]
      omega
    rw [weston_spring_update_pos s msec h, weston_spring_update_steps_pos s msec h, ih hlt,
      step_timestamp]
    omega

/-- C4: `weston_spring_update` is total (the loop terminates for every spring and every
`msec`, also when `msec - timestamp` wraps); it is `n` iterations of the loop body, the
timestamp advances by `4*n` modulo `2^32`, on return `(msec - timestamp) mod 2^32 ≤ 4`, and
`n = 0` exactly when `(msec - timestamp) mod 2^32 ≤ 4` on entry. -/
theorem c4_update_terminates (s : weston_spring) (msec : ℕ) (ht : s.timestamp < 2 ^ 32) :
    weston_spring_update s msec =
        weston_spring_update_step^[weston_spring_update_steps s msec] s ∧
      (weston_spring_update s msec).timestamp =
        (s.timestamp + 4 * weston_spring_update_steps s msec) % 2 ^ 32 ∧
      u32_sub msec (weston_spring_update s msec).timestamp ≤ 4 ∧
      (weston_spring_update_steps s msec = 0 ↔ u32_sub msec s.timestamp ≤ 4) := by
  refine ⟨weston_spring_update_eq_iterate s msec, weston_spring_update_timestamp s msec ht, ?_, ?_⟩
  · have h := u32_sub_after_update s msec msec le_rfl
    rw [weston_spring_update_steps_eq] at h
    omega
  · rw [weston_spring_update_steps_eq]
    omega

/-- Witness for C4: `msec = 3` is smaller than the timestamp `10`, so the difference
wraps. -/
theorem c4_update_terminates_witness :
    weston_spring_update ⟨200, 700, 0, 0, 1, 10⟩ 3 =
        weston_spring_update_step^[weston_spring_update_steps ⟨200, 700, 0, 0, 1, 10⟩ 3]
          ⟨200, 700, 0, 0, 1, 10⟩ ∧
      (weston_spring_update ⟨200, 700, 0, 0, 1, 10⟩ 3).timestamp =
        ((⟨200, 700, 0, 0, 1, 10⟩ : weston_spring).timestamp +
          4 * weston_spring_update_steps ⟨200, 700, 0, 0, 1, 10⟩ 3) % 2 ^ 32 ∧
      u32_sub 3 (weston_spring_update ⟨200, 700, 0, 0, 1, 10⟩ 3).timestamp ≤ 4 ∧
      (weston_spring_update_steps ⟨200, 700, 0, 0, 1, 10⟩ 3 = 0 ↔
        u32_sub 3 (⟨200, 700, 0, 0, 1, 10⟩ : weston_spring).timestamp ≤ 4) :=
  c4_update_terminates ⟨200, 700, 0, 0, 1, 10⟩ 3 (by norm_num)

/-! ### C5 -/

/-- Counterexample to C5 as stated: `current0 = 0` and `target = 0.0001` differ, yet
`weston_spring_done` is true right after `weston_spring_init`. -/
theorem c5_done_after_init_counterexample :
    (0 : ℚ) ≠ 1 / 10000 ∧
      weston_spring_done (weston_spring_init ⟨0, 0, 0, 0, 0, 0⟩ 1 0 (1 / 10000)) = true := by
  constructor
  · norm_num
  · norm_num [weston_spring_done, weston_spring_init, abs_lt]

/-- C5 (amended): whenever `|current0 - target| ≥ 0.0002`, `weston_spring_done` is false on
the spring produced by `weston_spring_init(spring, k, current0, target)`. -/
theorem c5_done_after_init (spring : weston_spring) (k current0 target : ℚ)
    (h : 2 / 10000 ≤ |current0 - target|) :
    weston_spring_done (weston_spring_init spring k current0 target) = false := by
  simp only [weston_spring_done, weston_spring_init, Bool.and_eq_false_imp, decide_eq_true_eq,
    decide_eq_false_iff_not, not_lt]
  intro _
  exact h

/-- Witness for C5 (amended): `current0 = 0`, `target = 1`. -/
theorem c5_done_after_init_witness :
    weston_spring_done (weston_spring_init ⟨0, 0, 0, 0, 0, 0⟩ 200 0 1) = false :=
  c5_done_after_init ⟨0, 0, 0, 0, 0, 0⟩ 200 0 1 (by norm_num [abs_of_neg])

/-! ### The controller spring (`k = 200`, `friction = 700`, from `0` to `1`) -/

theorem iterate_step_fields (n : ℕ) (s s' : weston_spring)
    (hk : s.k = s'.k) (hf : s.friction = s'.friction) (hc : s.current = s'.current)
    (hp : s.previous = s'.previous) (ht : s.target = s'.target) :
    (weston_spring_update_step^[n] s).k = (weston_spring_update_step^[n] s').k ∧
      (weston_spring_update_step^[n] s).friction = (weston_spring_update_step^[n] s').friction ∧
      (weston_spring_update_step^[n] s).current = (weston_spring_update_step^[n] s').current ∧
      (weston_spring_update_step^[n] s).previous = (weston_spring_update_step^[n] s').previous ∧
      (weston_spring_update_step^[n] s).target = (weston_spring_update_step^[n] s').target := by
  induction n generalizing s s' with
  | zero => exact ⟨hk, hf, hc, hp, ht⟩
  | succ n ih =>
    rw [Function.iterate_succ_apply, Function.iterate_succ_apply]
    apply ih <;> simp [weston_spring_update_step, *]

/-- Whether the controller spring is settled after `n` steps does not depend on the
memory `weston_spring_init` was handed nor on the clock value. -/
theorem done_iterate_controller (n : ℕ) (spring : weston_spring) (now : ℕ) :
    weston_spring_done (weston_spring_update_step^[n] (controller_spring spring now)) =
      weston_spring_done (weston_spring_update_step^[n] ⟨200, 700, 0, 0, 1, 0⟩) := by
  obtain ⟨_, _, hc, hp, ht⟩ := iterate_step_fields n (controller_spring spring now)
    ⟨200, 700, 0, 0, 1, 0⟩ rfl rfl rfl rfl rfl
  simp only [weston_spring_done, hc, hp, ht]

theorem iterate_step_params (n : ℕ) (s : weston_spring) :
    (weston_spring_update_step^[n] s).k = s.k ∧
      (weston_spring_update_step^[n] s).friction = s.friction ∧
      (weston_spring_update_step^[n] s).target = s.target := by
  induction n generalizing s with
  | zero => exact ⟨rfl, rfl, rfl⟩
  | succ n ih =>
    rw [Function.iterate_succ_apply]
    exact ih (weston_spring_update_step s)

theorem iterate_step_timestamp (n : ℕ) (s : weston_spring) (ht : s.timestamp < 2 ^ 32) :
    (weston_spring_update_step^[n] s).timestamp = (s.timestamp + 4 * n) % 2 ^ 32 := by
  induction n with
  | zero => simp only [Function.iterate_zero, id_eq]; omega
  | succ n ih =>
    rw [Function.iterate_succ_apply', step_timestamp, ih]
    omega

theorem controller_energy_step (s : weston_spring) (hk : s.k = 200) (hf : s.friction = 700)
    (ht : s.target = 1) :
    controller_energy (weston_spring_update_step s) = 9299 / 10000 * controller_energy s := by
  simp only [controller_energy, weston_spring_update_step, hk, hf, ht]
  ring

theorem controller_energy_iterate (n : ℕ) (s : weston_spring) (hk : s.k = 200)
    (hf : s.friction = 700) (ht : s.target = 1) :
    controller_energy (weston_spring_update_step^[n] s) =
      (9299 / 10000) ^ n * controller_energy s := by
  induction n with
  | zero => simp
  | succ n ih =>
    obtain ⟨h1, h2, h3⟩ := iterate_step_params n s
    rw [Function.iterate_succ_apply', controller_energy_step _ (h1.trans hk) (h2.trans hf)
      (h3.trans ht), ih]
    ring

/-- A small enough energy forces both samples within `0.0002` of the target `1`. -/
theorem done_of_energy_small (s : weston_spring) (ht : s.target = 1)
    (hE : controller_energy s < 280159 / 10 ^ 16) : weston_spring_done s = true := by
  have hx : (1 - s.current) ^ 2 < (2 / 10000) ^ 2 := by
    unfold controller_energy at hE
    nlinarith [sq_nonneg (19279 / 10000 * (1 - s.current) - 2 * (9299 / 10000) * (1 - s.previous))]
  have hy : (1 - s.previous) ^ 2 < (2 / 10000) ^ 2 := by
    unfold controller_energy at hE
    nlinarith [sq_nonneg (2 * (1 - s.current) - 19279 / 10000 * (1 - s.previous))]
  have hx1 := abs_lt_of_sq_lt_sq hx (by norm_num)
  have hy1 := abs_lt_of_sq_lt_sq hy (by norm_num)
  rw [abs_sub_comm] at hx1 hy1
  simp only [weston_spring_done, ht, Bool.and_eq_true, decide_eq_true_eq]
  exact ⟨hy1, hx1⟩

theorem controller_energy_late (m : ℕ) (hm : 249 ≤ m) :
    controller_energy (weston_spring_update_step^[m] ⟨200, 700, 0, 0, 1, 0⟩) <
      280159 / 10 ^ 16 := by
  rw [controller_energy_iterate m _ rfl rfl rfl]
  have hpow : ((9299 : ℚ) / 10000) ^ m ≤ (9299 / 10000) ^ 249 :=
    pow_le_pow_of_le_one (by norm_num) (by norm_num) hm
  have h0 : controller_energy ⟨200, 700, 0, 0, 1, 0⟩ = 1 / 500 := by
    norm_num [controller_energy]
  have hnum : ((9299 : ℚ) / 10000) ^ 249 * (1 / 500) < 280159 / 10 ^ 16 := by norm_num
  rw [h0]
  calc ((9299 : ℚ) / 10000) ^ m * (1 / 500) ≤ (9299 / 10000) ^ 249 * (1 / 500) :=
        mul_le_mul_of_nonneg_right hpow (by norm_num)
    _ < 280159 / 10 ^ 16 := hnum

theorem controller_done_late (m : ℕ) (hm : 246 ≤ m) :
    weston_spring_done (weston_spring_update_step^[m] ⟨200, 700, 0, 0, 1, 0⟩) = true := by
  by_cases h : 249 ≤ m
  · exact done_of_energy_small _ (iterate_step_params m _).2.2 (controller_energy_late m h)
  · have hfin : ∀ i < 3, weston_spring_done
        (weston_spring_update_step^[246 + i] ⟨200, 700, 0, 0, 1, 0⟩) = true := by decide!
    have := hfin (m - 246) (by omega)
    rwa [show 246 + (m - 246) = m by omega] at this

theorem controller_not_done_early : ∀ n < 200,
    weston_spring_done (weston_spring_update_step^[n] ⟨200, 700, 0, 0, 1, 0⟩) = false := by
  decide!

theorem controller_done_200 :
    weston_spring_done (weston_spring_update_step^[200] ⟨200, 700, 0, 0, 1, 0⟩) = true := by
  decide!

theorem scenario_calls_succ (j : ℕ) :
    scenario_calls (j + 1) = scenario_calls j ++ [4 * (j + 1)] := by
  simp [scenario_calls, List.range_succ]

theorem spring_updates_snoc (s : weston_spring) (ms : List ℕ) (m : ℕ) :
    spring_updates s (ms ++ [m]) = weston_spring_update (spring_updates s ms) m := by
  simp [spring_updates, List.foldl_append]

/-- From timestamp `0` the calls `update(4), ..., update(4*(j+1))` perform `j` steps in
all. -/
theorem spring_updates_scenario (j : ℕ) (s : weston_spring) (ht : s.timestamp = 0)
    (hj : 4 * (j + 1) < 2 ^ 32) :
    spring_updates s (scenario_calls (j + 1)) = weston_spring_update_step^[j] s := by
  induction j with
  | zero =>
    have h4 : ¬ 4 < u32_sub 4 s.timestamp := by rw [ht]; norm_num [u32_sub]
    have hc : scenario_calls 1 = [] ++ [4] := rfl
    rw [hc, spring_updates_snoc]
    exact weston_spring_update_neg s 4 h4
  | succ j ih =>
    have hts := iterate_step_timestamp j s (by rw [ht]; norm_num)
    rw [scenario_calls_succ, spring_updates_snoc, ih (by omega),
      weston_spring_update_eq_iterate, weston_spring_update_steps_eq, hts, ht,
      Function.iterate_succ_apply']
    have h1 : (u32_sub (4 * (j + 1 + 1)) ((0 + 4 * j) % 2 ^ 32) - 1) / 4 = 1 := by
      unfold u32_sub
      omega
    rw [h1]
    rfl

/-! ### C6 -/

/-- C6: for the spring set up by `weston_spring_init(s, 200, 0, 1)` with friction `700`
(whatever the memory handed to `init` and the clock value), there is `n ≤ 250` such that
after `n` iterations of the loop of `weston_spring_update` `weston_spring_done` is true
(`n = 200` does). -/
theorem c6_controller_settles (spring : weston_spring) (now : ℕ) :
    ∃ n, n ≤ 250 ∧
      weston_spring_done (weston_spring_update_step^[n] (controller_spring spring now)) = true :=
  ⟨200, by norm_num, by rw [done_iterate_controller]; exact controller_done_200⟩

/-! ### C7 -/

/-- Counterexample to C7 as stated: in the scenario (`init(s, 200, 0, 1)`, friction `700`,
timestamp `0`), `weston_spring_done` is true after none of the calls
`update(s, 4), ..., update(s, 400)`. -/
theorem c7_scenario_counterexample :
    ¬ ∃ j, 1 ≤ j ∧ j ≤ 100 ∧
      weston_spring_done
        (spring_updates (controller_spring ⟨0, 0, 0, 0, 0, 0⟩ 0) (scenario_calls j)) = true := by
  rintro ⟨j, h1, h2, hd⟩
  obtain ⟨i, rfl⟩ : ∃ i, j = i + 1 := ⟨j - 1, by omega⟩
  rw [spring_updates_scenario i _ rfl (by omega), done_iterate_controller,
    controller_not_done_early i (by omega)] at hd
  exact Bool.false_ne_true hd

/-- C7 (amended): in the scenario, `weston_spring_done` is false after each of the calls
`update(s, 4), ..., update(s, 800)` and true after the next call `update(s, 804)`, which
leaves the timestamp at `800`. -/
theorem c7_scenario (spring : weston_spring) (j : ℕ) (h1 : 1 ≤ j) (h2 : j ≤ 200) :
    weston_spring_done
        (spring_updates (controller_spring spring 0) (scenario_calls j)) = false ∧
      weston_spring_done
        (spring_updates (controller_spring spring 0) (scenario_calls 201)) = true ∧
      (spring_updates (controller_spring spring 0) (scenario_calls 201)).timestamp = 800 := by
  obtain ⟨i, rfl⟩ : ∃ i, j = i + 1 := ⟨j - 1, by omega⟩
  refine ⟨?_, ?_, ?_⟩
  · rw [spring_updates_scenario i _ rfl (by omega), done_iterate_controller]
    exact controller_not_done_early i (by omega)
  · rw [spring_updates_scenario 200 _ rfl (by norm_num), done_iterate_controller]
    exact controller_done_200
  · rw [spring_updates_scenario 200 _ rfl (by norm_num),
      iterate_step_timestamp 200 _ (by norm_num [controller_spring])]
    norm_num [controller_spring]

/-- Witness for C7 (amended): the call `update(s, 400)` is the 100th. -/
theorem c7_scenario_witness :
    weston_spring_done
        (spring_updates (controller_spring ⟨0, 0, 0, 0, 0, 0⟩ 0) (scenario_calls 100)) = false ∧
      weston_spring_done
        (spring_updates (controller_spring ⟨0, 0, 0, 0, 0, 0⟩ 0) (scenario_calls 201)) = true ∧
      (spring_updates (controller_spring ⟨0, 0, 0, 0, 0, 0⟩ 0) (scenario_calls 201)).timestamp =
        800 :=
  c7_scenario ⟨0, 0, 0, 0, 0, 0⟩ 100 (by norm_num) (by norm_num)

/-! ### C8 -/

/-- Counterexample to C8 as stated: the controller spring is settled after `200` steps
but not after `217` steps (nor after `245`). -/
theorem c8_absorbing_counterexample :
    weston_spring_done
        (weston_spring_update_step^[200] (controller_spring ⟨0, 0, 0, 0, 0, 0⟩ 0)) = true ∧
      200 ≤ 217 ∧
      weston_spring_done
        (weston_spring_update_step^[217] (controller_spring ⟨0, 0, 0, 0, 0, 0⟩ 0)) = false ∧
      weston_spring_done
        (weston_spring_update_step^[245] (controller_spring ⟨0, 0, 0, 0, 0, 0⟩ 0)) = false := by
  decide!

/-- C8 (amended): for the controller spring (`init(s, 200, 0, 1)`, friction `700`,
unchanged target) `weston_spring_done` is true after every `m ≥ 246` integration steps. -/
theorem c8_absorbing_late (spring : weston_spring) (now m : ℕ) (hm : 246 ≤ m) :
    weston_spring_done (weston_spring_update_step^[m] (controller_spring spring now)) = true := by
  rw [done_iterate_controller]
  exact controller_done_late m hm

/-- Witness for C8 (amended): `1000` steps. -/
theorem c8_absorbing_late_witness :
    weston_spring_done
      (weston_spring_update_step^[1000] (controller_spring ⟨0, 0, 0, 0, 0, 0⟩ 0)) = true :=
  c8_absorbing_late ⟨0, 0, 0, 0, 0, 0⟩ 0 1000 (by norm_num)

/-! ## Theorems: key bindings -/

theorem run_binding_body_of_matches (handlers : ℕ → binding_handler)
    (time key button axis : ℕ) (value : ℤ) (st : binding_state) (b : weston_binding)
    (hv : value ≠ 0)
    (hb : binding_matches key button axis st.seat.modifier_state b = true) :
    (run_binding_body handlers time key button axis value st b).calls =
        st.calls ++ [call_of time key button axis value b] ∧
      (run_binding_body handlers time key button axis value st b).seat.modifier_state =
        (handlers b.handler st.seat time key button axis value b.data).modifier_state := by
  simp only [binding_matches, decide_eq_true_eq] at hb
  have hc : b.key = key ∧ b.button = button ∧ b.axis = axis ∧
      b.modifier = st.seat.modifier_state ∧ value ≠ 0 := ⟨hb.1, hb.2.1, hb.2.2.1, hb.2.2.2, hv⟩
  unfold run_binding_body
  rw [if_pos hc]
  dsimp only
  split <;> exact ⟨rfl, rfl⟩

theorem run_binding_body_of_not_matches (handlers : ℕ → binding_handler)
    (time key button axis : ℕ) (value : ℤ) (st : binding_state) (b : weston_binding)
    (hb : binding_matches key button axis st.seat.modifier_state b = false) :
    run_binding_body handlers time key button axis value st b = st := by
  simp only [binding_matches, decide_eq_false_iff_not] at hb
  unfold run_binding_body
  rw [if_neg]
  rintro ⟨h1, h2, h3, h4, _⟩
  exact hb ⟨h1, h2, h3, h4⟩

/-- The trace of the loop over any list of bindings, for handlers that keep the
modifier state. -/
theorem run_binding_loop_calls (handlers : ℕ → binding_handler)
    (time key button axis : ℕ) (value : ℤ) (hv : value ≠ 0)
    (hmod : ∀ h seat t k b a v d,
      (handlers h seat t k b a v d).modifier_state = seat.modifier_state)
    (bs : List weston_binding) (st : binding_state) :
    (bs.foldl (run_binding_body handlers time key button axis value) st).calls =
      st.calls ++ (bs.filter (binding_matches key button axis st.seat.modifier_state)).map
        (call_of time key button axis value) := by
  induction bs generalizing st with
  | nil => simp
  | cons b bs ih =>
    rw [List.foldl_cons, ih]
    cases hb : binding_matches key button axis st.seat.modifier_state b with
    | true =>
      obtain ⟨h1, h2⟩ := run_binding_body_of_matches handlers time key button axis value st b hv hb
      rw [h1, h2, hmod, List.filter_cons_of_pos hb, List.map_cons, List.append_assoc]
      rfl
    | false =>
      rw [run_binding_body_of_not_matches handlers time key button axis value st b hb,
        List.filter_cons_of_neg (by simp [hb])]

/-! ### C9 -/

/-- C9: for an event with `value ≠ 0` and handlers that keep the seat's modifier state (the
binding list is out of their reach), `weston_compositor_run_binding` calls exactly the
handlers of the bindings whose `(key, button, axis, modifier)` equals
`(key, button, axis, seat.modifier_state)`, each once, in list order, which is registration
order since `weston_compositor_add_binding` appends. In particular two bindings registered
with one tuple both fire in registration order, and with bindings `{key=30, modifier=0}`
and `{key=30, modifier=ctrl}` (`ctrl ≠ 0`) a dispatch of key `30` under modifier state
`ctrl` calls only the second handler. -/
theorem c9_run_binding_order (handlers : ℕ → binding_handler) (compositor : weston_compositor)
    (st : binding_state) (time key button axis : ℕ) (value : ℤ)
    (modifier h1 d1 h2 d2 ctrl : ℕ) (hv : value ≠ 0) (hctrl : ctrl ≠ 0)
    (hmod : ∀ h seat t k b a v d,
      (handlers h seat t k b a v d).modifier_state = seat.modifier_state) :
    (weston_compositor_run_binding handlers compositor st time key button axis value).calls =
        st.calls ++
          (compositor.binding_list.filter
            (binding_matches key button axis st.seat.modifier_state)).map
            (call_of time key button axis value) ∧
      (weston_compositor_add_binding compositor key button axis modifier h1 d1).binding_list =
        compositor.binding_list ++ [⟨key, button, axis, modifier, h1, d1⟩] ∧
      (weston_compositor_run_binding handlers
          (weston_compositor_add_binding
            (weston_compositor_add_binding ⟨[]⟩ key button axis st.seat.modifier_state h1 d1)
            key button axis st.seat.modifier_state h2 d2)
          st time key button axis value).calls =
        st.calls ++ [⟨h1, time, key, button, axis, value, d1⟩,
          ⟨h2, time, key, button, axis, value, d2⟩] ∧
      (st.seat.modifier_state = ctrl →
        (weston_compositor_run_binding handlers
            (weston_compositor_add_binding
              (weston_compositor_add_binding ⟨[]⟩ 30 0 0 0 h1 d1) 30 0 0 ctrl h2 d2)
            st time 30 0 0 value).calls =
          st.calls ++ [⟨h2, time, 30, 0, 0, value, d2⟩]) := by
  refine ⟨run_binding_loop_calls handlers time key button axis value hv hmod _ st, rfl, ?_, ?_⟩
  · unfold weston_compositor_run_binding
    rw [run_binding_loop_calls handlers time key button axis value hv hmod]
    simp [weston_compositor_add_binding, binding_matches, call_of]
  · intro hst
    unfold weston_compositor_run_binding
    rw [run_binding_loop_calls handlers time 30 0 0 value hv hmod]
    simp [weston_compositor_add_binding, binding_matches, call_of, hst, hctrl.symm]

/-- Witness for C9: handlers that leave the seat alone, a press of key `30` under modifier
state `1`, on a compositor holding one binding for another key. -/
theorem c9_run_binding_order_witness :
    (weston_compositor_run_binding (fun _ seat _ _ _ _ _ _ => seat) ⟨[⟨31, 0, 0, 0, 7, 0⟩]⟩
          ⟨⟨⟨⟨keyboard_grab.default_grab, none⟩⟩, 1⟩, []⟩ 5 30 0 0 1).calls =
        ([] : List handler_call) ++
          (([⟨31, 0, 0, 0, 7, 0⟩] : List weston_binding).filter
            (binding_matches 30 0 0 1)).map (call_of 5 30 0 0 1) ∧
      (weston_compositor_add_binding ⟨[⟨31, 0, 0, 0, 7, 0⟩]⟩ 30 0 0 0 8 0).binding_list =
        [⟨31, 0, 0, 0, 7, 0⟩] ++ [⟨30, 0, 0, 0, 8, 0⟩] ∧
      (weston_compositor_run_binding (fun _ seat _ _ _ _ _ _ => seat)
          (weston_compositor_add_binding
            (weston_compositor_add_binding ⟨[]⟩ 30 0 0 1 8 0) 30 0 0 1 9 0)
          ⟨⟨⟨⟨keyboard_grab.default_grab, none⟩⟩, 1⟩, []⟩ 5 30 0 0 1).calls =
        [] ++ [⟨8, 5, 30, 0, 0, 1, 0⟩, ⟨9, 5, 30, 0, 0, 1, 0⟩] ∧
      ((1 : ℕ) = 1 →
        (weston_compositor_run_binding (fun _ seat _ _ _ _ _ _ => seat)
            (weston_compositor_add_binding
              (weston_compositor_add_binding ⟨[]⟩ 30 0 0 0 8 0) 30 0 0 1 9 0)
            ⟨⟨⟨⟨keyboard_grab.default_grab, none⟩⟩, 1⟩, []⟩ 5 30 0 0 1).calls =
          [] ++ [⟨9, 5, 30, 0, 0, 1, 0⟩]) :=
  c9_run_binding_order (fun _ seat _ _ _ _ _ _ => seat) ⟨[⟨31, 0, 0, 0, 7, 0⟩]⟩
    ⟨⟨⟨⟨keyboard_grab.default_grab, none⟩⟩, 1⟩, []⟩ 5 30 0 0 1 0 8 0 9 0 1
    (by decide) (by decide) (fun _ _ _ _ _ _ _ _ => rfl)

/-! ### C10 -/

/-- C10: with `value = 0`, `weston_compositor_run_binding` returns the state it was given:
no handler call is added to the trace and the seat, its keyboard grab included, is
unchanged, for every binding list, seat, time, key, button and axis. -/
theorem c10_run_binding_release (handlers : ℕ → binding_handler)
    (compositor : weston_compositor) (st : binding_state) (time key button axis : ℕ) :
    weston_compositor_run_binding handlers compositor st time key button axis 0 = st := by
  unfold weston_compositor_run_binding
  induction compositor.binding_list with
  | nil => rfl
  | cons b bs ih =>
    rw [List.foldl_cons]
    have hb : run_binding_body handlers time key button axis 0 st b = st := by
      unfold run_binding_body
      rw [if_neg]
      rintro ⟨_, _, _, _, h⟩
      exact h rfl
    rw [hb, ih]

/-! ### The grab installed by a dispatch -/

theorem run_binding_body_idle (handlers : ℕ → binding_handler)
    (time key button axis : ℕ) (value : ℤ) (st : binding_state) (b : weston_binding)
    (h : ¬ (binding_matches key button axis st.seat.modifier_state b = true ∧ value ≠ 0)) :
    run_binding_body handlers time key button axis value st b = st ∧
      run_binding_body_installs handlers time key button axis value st b = false := by
  have hc : ¬ (b.key = key ∧ b.button = button ∧ b.axis = axis ∧
      b.modifier = st.seat.modifier_state ∧ value ≠ 0) := by
    rintro ⟨h1, h2, h3, h4, h5⟩
    exact h ⟨by simp [binding_matches, h1, h2, h3, h4], h5⟩
  unfold run_binding_body run_binding_body_installs
  rw [if_neg hc, if_neg hc]
  exact ⟨rfl, rfl⟩

theorem run_binding_body_fires (handlers : ℕ → binding_handler)
    (time key button axis : ℕ) (value : ℤ) (st : binding_state) (b : weston_binding)
    (hgrab : ∀ h seat t k bt a v d,
      (handlers h seat t k bt a v d).seat.keyboard.grab = seat.seat.keyboard.grab)
    (hb : binding_matches key button axis st.seat.modifier_state b = true) (hv : value ≠ 0) :
    (run_binding_body handlers time key button axis value st b).seat.seat.keyboard.grab =
        (if key ≠ 0 ∧ st.seat.seat.keyboard.grab = keyboard_grab.default_grab then
          keyboard_grab.binding_grab key
        else st.seat.seat.keyboard.grab) ∧
      run_binding_body_installs handlers time key button axis value st b =
        decide (key ≠ 0 ∧ st.seat.seat.keyboard.grab = keyboard_grab.default_grab) := by
  simp only [binding_matches, decide_eq_true_eq] at hb
  have hc : b.key = key ∧ b.button = button ∧ b.axis = axis ∧
      b.modifier = st.seat.modifier_state ∧ value ≠ 0 := ⟨hb.1, hb.2.1, hb.2.2.1, hb.2.2.2, hv⟩
  unfold run_binding_body run_binding_body_installs
  rw [if_pos hc, if_pos hc]
  simp only [hgrab, hb.1]
  by_cases hi : key ≠ 0 ∧ st.seat.seat.keyboard.grab = keyboard_grab.default_grab
  · rw [if_pos hi, if_pos hi]
    exact ⟨rfl, trivial⟩
  · rw [if_neg hi, if_neg hi]
    exact ⟨hgrab _ _ _ _ _ _ _ _, trivial⟩

/-- A grab other than the default grab survives the whole loop, and no binding grab is
installed. -/
theorem run_binding_loop_grabbed (handlers : ℕ → binding_handler)
    (time key button axis : ℕ) (value : ℤ)
    (hgrab : ∀ h seat t k bt a v d,
      (handlers h seat t k bt a v d).seat.keyboard.grab = seat.seat.keyboard.grab)
    (bs : List weston_binding) (st : binding_state)
    (hst : st.seat.seat.keyboard.grab ≠ keyboard_grab.default_grab) :
    (bs.foldl (run_binding_body handlers time key button axis value) st).seat.seat.keyboard.grab =
        st.seat.seat.keyboard.grab ∧
      run_binding_installers handlers time key button axis value bs st = [] := by
  induction bs generalizing st with
  | nil => exact ⟨rfl, rfl⟩
  | cons b bs ih =>
    rw [List.foldl_cons, run_binding_installers]
    by_cases hf : binding_matches key button axis st.seat.modifier_state b = true ∧ value ≠ 0
    · obtain ⟨h1, h2⟩ := run_binding_body_fires handlers time key button axis value st b hgrab
        hf.1 hf.2
      have hno : ¬ (key ≠ 0 ∧ st.seat.seat.keyboard.grab = keyboard_grab.default_grab) :=
        fun h => hst h.2
      rw [if_neg hno] at h1
      rw [decide_eq_false hno] at h2
      obtain ⟨ih1, ih2⟩ := ih (run_binding_body handlers time key button axis value st b)
        (by rw [h1]; exact hst)
      rw [ih1, ih2, h1, h2]
      exact ⟨rfl, rfl⟩
    · obtain ⟨h1, h2⟩ := run_binding_body_idle handlers time key button axis value st b hf
      rw [h1, h2]
      exact ih st hst

/-- From the default grab, a press of a key (`key ≠ 0`, `value ≠ 0`): the first matching
binding installs the binding grab, no other binding does, and the grab is the binding grab
for `key` when some binding matches. -/
theorem run_binding_loop_default (handlers : ℕ → binding_handler)
    (time key button axis : ℕ) (value : ℤ)
    (hgrab : ∀ h seat t k bt a v d,
      (handlers h seat t k bt a v d).seat.keyboard.grab = seat.seat.keyboard.grab)
    (hkey : key ≠ 0) (hv : value ≠ 0)
    (bs : List weston_binding) (st : binding_state)
    (hst : st.seat.seat.keyboard.grab = keyboard_grab.default_grab) :
    run_binding_installers handlers time key button axis value bs st =
        (bs.filter (binding_matches key button axis st.seat.modifier_state)).take 1 ∧
      ((∃ b ∈ bs, binding_matches key button axis st.seat.modifier_state b = true) →
        (bs.foldl (run_binding_body handlers time key button axis value)
          st).seat.seat.keyboard.grab = keyboard_grab.binding_grab key) := by
  induction bs with
  | nil => exact ⟨rfl, by rintro ⟨b, hb, _⟩; cases hb⟩
  | cons b bs ih =>
    rw [List.foldl_cons, run_binding_installers]
    cases hb : binding_matches key button axis st.seat.modifier_state b with
    | true =>
      obtain ⟨h1, h2⟩ := run_binding_body_fires handlers time key button axis value st b hgrab
        hb hv
      rw [if_pos ⟨hkey, hst⟩] at h1
      rw [decide_eq_true (⟨hkey, hst⟩ : key ≠ 0 ∧ _)] at h2
      obtain ⟨g1, g2⟩ := run_binding_loop_grabbed handlers time key button axis value hgrab bs
        (run_binding_body handlers time key button axis value st b) (by rw [h1]; simp)
      rw [h2, g2, g1, h1, List.filter_cons_of_pos hb]
      exact ⟨rfl, fun _ => rfl⟩
    | false =>
      obtain ⟨h1, h2⟩ := run_binding_body_idle handlers time key button axis value st b
        (by simp [hb])
      rw [h1, h2, List.filter_cons_of_neg (by simp [hb])]
      refine ⟨ih.1, ?_⟩
      rintro ⟨b', hb', hm⟩
      rcases List.mem_cons.mp hb' with rfl | hmem
      · rw [hb] at hm
        cases hm
      · exact ih.2 ⟨b', hmem, hm⟩

/-! ### C11 -/

/-- C11: for a seat whose keyboard is on its default grab, a press (`value ≠ 0`) of a key
(`key ≠ 0`) that some binding matches, and handlers that leave the keyboard grab
untouched: after `weston_compositor_run_binding` the keyboard grab is the binding grab
watching `key`, and a key event for `key` with state `0` delivered to that grab sends
nothing (trace and serial counter unchanged) and puts the keyboard back on its default
grab. -/
theorem c11_release_swallowed (handlers : ℕ → binding_handler) (compositor : weston_compositor)
    (st : binding_state) (time key button axis : ℕ) (value : ℤ)
    (serial : ℕ) (sent : List key_event) (time2 : ℕ)
    (hgrab : ∀ h seat t k bt a v d,
      (handlers h seat t k bt a v d).seat.keyboard.grab = seat.seat.keyboard.grab)
    (hkey : key ≠ 0) (hv : value ≠ 0)
    (hst : st.seat.seat.keyboard.grab = keyboard_grab.default_grab)
    (hmatch : ∃ b ∈ compositor.binding_list,
      binding_matches key button axis st.seat.modifier_state b = true) :
    (weston_compositor_run_binding handlers compositor st time key button axis
        value).seat.seat.keyboard.grab = keyboard_grab.binding_grab key ∧
      keyboard_grab_key
          ⟨(weston_compositor_run_binding handlers compositor st time key button axis
            value).seat.seat.keyboard, serial, sent⟩ time2 key 0 =
        some ⟨{ (weston_compositor_run_binding handlers compositor st time key button axis
            value).seat.seat.keyboard with grab := keyboard_grab.default_grab }, serial, sent⟩ := by
  have h := (run_binding_loop_default handlers time key button axis value hgrab hkey hv
    compositor.binding_list st hst).2 hmatch
  refine ⟨h, ?_⟩
  unfold keyboard_grab_key
  unfold weston_compositor_run_binding at *
  simp only [h]
  simp [binding_key, wl_keyboard_end_grab]

/-- Witness for C11: one binding for key `30`, a handler that leaves the seat alone, a
focused client `5`. -/
theorem c11_release_swallowed_witness :
    (weston_compositor_run_binding (fun _ seat _ _ _ _ _ _ => seat) ⟨[⟨30, 0, 0, 0, 7, 0⟩]⟩
        ⟨⟨⟨⟨keyboard_grab.default_grab, some 5⟩⟩, 0⟩, []⟩ 10 30 0 0
        1).seat.seat.keyboard.grab = keyboard_grab.binding_grab 30 ∧
      keyboard_grab_key
          ⟨(weston_compositor_run_binding (fun _ seat _ _ _ _ _ _ => seat)
            ⟨[⟨30, 0, 0, 0, 7, 0⟩]⟩ ⟨⟨⟨⟨keyboard_grab.default_grab, some 5⟩⟩, 0⟩, []⟩ 10 30 0 0
            1).seat.seat.keyboard, 3, []⟩ 11 30 0 =
        some ⟨{ (weston_compositor_run_binding (fun _ seat _ _ _ _ _ _ => seat)
            ⟨[⟨30, 0, 0, 0, 7, 0⟩]⟩ ⟨⟨⟨⟨keyboard_grab.default_grab, some 5⟩⟩, 0⟩, []⟩ 10 30 0 0
            1).seat.seat.keyboard with grab := keyboard_grab.default_grab }, 3, []⟩ :=
  c11_release_swallowed (fun _ seat _ _ _ _ _ _ => seat) ⟨[⟨30, 0, 0, 0, 7, 0⟩]⟩
    ⟨⟨⟨⟨keyboard_grab.default_grab, some 5⟩⟩, 0⟩, []⟩ 10 30 0 0 1 3 [] 11
    (fun _ _ _ _ _ _ _ _ => rfl) (by decide) (by decide) rfl
    ⟨⟨30, 0, 0, 0, 7, 0⟩, by simp, by decide⟩

/-! ### C12 -/

/-- C12: while the binding grab watching `K` is installed, a key event for a key other than
`K` delivered to the grab sends, when the keyboard has a focused resource `r`, exactly one
key event to `r` with the same time, key and state and the next serial of the display, and
sends nothing when there is no focused resource; either way the keyboard, and with it the
installed grab, is unchanged. -/
theorem c12_other_key_forwarded (K : ℕ) (w : keyboard_world) (time key state : ℕ)
    (hgrab : w.keyboard.grab = keyboard_grab.binding_grab K) (hne : key ≠ K) :
    (∀ r, w.keyboard.focus_resource = some r →
        keyboard_grab_key w time key state =
          some { w with
            serial := wl_display_next_serial w.serial
            sent := w.sent ++ [⟨r, wl_display_next_serial w.serial, time, key, state⟩] }) ∧
      (w.keyboard.focus_resource = none → keyboard_grab_key w time key state = some w) ∧
      ∃ w', keyboard_grab_key w time key state = some w' ∧ w'.keyboard = w.keyboard ∧
        w'.keyboard.grab = keyboard_grab.binding_grab K := by
  unfold keyboard_grab_key
  simp only [hgrab]
  unfold binding_key
  rw [if_neg hne]
  refine ⟨?_, ?_, ?_⟩
  · intro r hr
    simp only [hr]
  · intro hr
    simp only [hr]
  · cases hr : w.keyboard.focus_resource with
    | none => exact ⟨w, rfl, rfl, hgrab⟩
    | some r => exact ⟨_, rfl, rfl, hgrab⟩

/-- Witness for C12: the grab watches key `30`, key `31` goes down, client `5` has the
focus. -/
theorem c12_other_key_forwarded_witness :
    (∀ r, (⟨⟨keyboard_grab.binding_grab 30, some 5⟩, 3, []⟩ :
          keyboard_world).keyboard.focus_resource = some r →
        keyboard_grab_key ⟨⟨keyboard_grab.binding_grab 30, some 5⟩, 3, []⟩ 11 31 1 =
          some { (⟨⟨keyboard_grab.binding_grab 30, some 5⟩, 3, []⟩ : keyboard_world) with
            serial := wl_display_next_serial
              (⟨⟨keyboard_grab.binding_grab 30, some 5⟩, 3, []⟩ : keyboard_world).serial
            sent := (⟨⟨keyboard_grab.binding_grab 30, some 5⟩, 3, []⟩ : keyboard_world).sent ++
              [⟨r, wl_display_next_serial
                (⟨⟨keyboard_grab.binding_grab 30, some 5⟩, 3, []⟩ : keyboard_world).serial,
                11, 31, 1⟩] }) ∧
      ((⟨⟨keyboard_grab.binding_grab 30, some 5⟩, 3, []⟩ :
          keyboard_world).keyboard.focus_resource = none →
        keyboard_grab_key ⟨⟨keyboard_grab.binding_grab 30, some 5⟩, 3, []⟩ 11 31 1 =
          some ⟨⟨keyboard_grab.binding_grab 30, some 5⟩, 3, []⟩) ∧
      ∃ w', keyboard_grab_key ⟨⟨keyboard_grab.binding_grab 30, some 5⟩, 3, []⟩ 11 31 1 =
          some w' ∧
        w'.keyboard = (⟨⟨keyboard_grab.binding_grab 30, some 5⟩, 3, []⟩ :
          keyboard_world).keyboard ∧
        w'.keyboard.grab = keyboard_grab.binding_grab 30 :=
  c12_other_key_forwarded 30 ⟨⟨keyboard_grab.binding_grab 30, some 5⟩, 3, []⟩ 11 31 1 rfl
    (by decide)

/-! ### C19 -/

/-- C19: while the binding grab watching `K` is installed, a key event for `K` with
non-zero state delivered to the grab changes nothing: nothing is sent and the grab stays
installed. Whatever its state, an event for `K` sends nothing. -/
theorem c19_watched_key_press (K : ℕ) (w : keyboard_world) (time state : ℕ)
    (hgrab : w.keyboard.grab = keyboard_grab.binding_grab K) (hstate : state ≠ 0) :
    keyboard_grab_key w time K state = some w ∧
      ∀ state2, ∃ w', keyboard_grab_key w time K state2 = some w' ∧
        w'.sent = w.sent ∧ w'.serial = w.serial := by
  unfold keyboard_grab_key
  simp only [hgrab]
  unfold binding_key
  refine ⟨by simp [hstate], ?_⟩
  intro state2
  by_cases h0 : state2 = 0
  · exact ⟨{ w with keyboard := wl_keyboard_end_grab w.keyboard }, by simp [h0], rfl, rfl⟩
  · exact ⟨w, by simp [h0], rfl, rfl⟩

/-- Witness for C19: a repeat (state `2`) of the watched key `30`. -/
theorem c19_watched_key_press_witness :
    keyboard_grab_key ⟨⟨keyboard_grab.binding_grab 30, some 5⟩, 3, []⟩ 11 30 2 =
        some ⟨⟨keyboard_grab.binding_grab 30, some 5⟩, 3, []⟩ ∧
      ∀ state2, ∃ w',
        keyboard_grab_key ⟨⟨keyboard_grab.binding_grab 30, some 5⟩, 3, []⟩ 11 30 state2 =
          some w' ∧
        w'.sent = (⟨⟨keyboard_grab.binding_grab 30, some 5⟩, 3, []⟩ : keyboard_world).sent ∧
        w'.serial = (⟨⟨keyboard_grab.binding_grab 30, some 5⟩, 3, []⟩ : keyboard_world).serial :=
  c19_watched_key_press 30 ⟨⟨keyboard_grab.binding_grab 30, some 5⟩, 3, []⟩ 11 2 rfl (by decide)

/-! ### C20 -/

theorem weston_fade_frame_settled (a : ℕ) (fade : weston_fade) (w : animation_world)
    (msecs : ℕ) (h : weston_spring_done (weston_spring_update fade.spring msecs) = true) :
    weston_fade_frame a fade w msecs =
      ({ fade with spring := weston_spring_update fade.spring msecs },
       weston_fade_destroy a { fade with spring := weston_spring_update fade.spring msecs } w) := by
  unfold weston_fade_frame
  simp only [h, if_true]

theorem weston_fade_frame_unsettled (a : ℕ) (fade : weston_fade) (w : animation_world)
    (msecs : ℕ) (h : weston_spring_done (weston_spring_update fade.spring msecs) = false) :
    weston_fade_frame a fade w msecs =
      ({ fade with spring := weston_spring_update fade.spring msecs },
       { w with
         surfaces := Function.update w.surfaces fade.surface
           { w.surfaces fade.surface with
             alpha :=
               if (weston_spring_update fade.spring msecs).current > 1 then 1
               else if (weston_spring_update fade.spring msecs).current < 0 then 0
               else (weston_spring_update fade.spring msecs).current
             geometry_dirty := true }
         repaints := w.repaints + 1 }) := by
  unfold weston_fade_frame
  simp only [h, Bool.false_eq_true, if_false]

theorem weston_zoom_frame_settled (a : ℕ) (zoom : weston_zoom) (w : animation_world)
    (msecs : ℕ) (h : weston_spring_done (weston_spring_update zoom.spring msecs) = true) :
    weston_zoom_frame a zoom w msecs =
      ({ zoom with spring := weston_spring_update zoom.spring msecs },
       weston_zoom_destroy a { zoom with spring := weston_spring_update zoom.spring msecs } w) := by
  unfold weston_zoom_frame
  simp only [h, if_true]

theorem weston_zoom_frame_unsettled (a : ℕ) (zoom : weston_zoom) (w : animation_world)
    (msecs : ℕ) (h : weston_spring_done (weston_spring_update zoom.spring msecs) = false) :
    weston_zoom_frame a zoom w msecs =
      ({ zoom with
         spring := weston_spring_update zoom.spring msecs
         transform_matrix :=
           [matrix_op.translate (-(1 / 2) * (w.surfaces zoom.surface).geometry_width)
              (-(1 / 2) * (w.surfaces zoom.surface).geometry_height) 0,
            matrix_op.scale
              (zoom.start + (zoom.stop - zoom.start) *
                (weston_spring_update zoom.spring msecs).current)
              (zoom.start + (zoom.stop - zoom.start) *
                (weston_spring_update zoom.spring msecs).current)
              (zoom.start + (zoom.stop - zoom.start) *
                (weston_spring_update zoom.spring msecs).current),
            matrix_op.translate (1 / 2 * (w.surfaces zoom.surface).geometry_width)
              (1 / 2 * (w.surfaces zoom.surface).geometry_height) 0] },
       { w with
         surfaces := Function.update w.surfaces zoom.surface
           { w.surfaces zoom.surface with
             alpha :=
               if (weston_spring_update zoom.spring msecs).current > 1 then 1
               else (weston_spring_update zoom.spring msecs).current
             geometry_dirty := true }
         repaints := w.repaints + 1 }) := by
  unfold weston_zoom_frame
  simp only [h, Bool.false_eq_true, if_false]

/-- At the clock value of its own timestamp the loop of `weston_spring_update` does not
run. -/
theorem weston_spring_update_now (s : weston_spring) :
    weston_spring_update s s.timestamp = s := by
  apply weston_spring_update_neg
  unfold u32_sub
  omega

/-- The creation-time tick of a controller never finds the spring settled. -/
theorem controller_spring_creation_tick (spring : weston_spring) (now : ℕ) :
    weston_spring_done (weston_spring_update (controller_spring spring now)
      (controller_spring spring now).timestamp) = false := by
  rw [weston_spring_update_now]
  norm_num [weston_spring_done, controller_spring, weston_spring_init, abs_lt]

/-- What `weston_fade_run` leaves behind: the creation-time tick writes `alpha = 0`, sets
the dirty flag and requests a repaint; the listener is linked in at the tail and the
animation at the head. -/
theorem weston_fade_run_eq (a : ℕ) (mem : weston_fade) (w : animation_world) (surface : ℕ)
    (done : Option ℕ) (data now : ℕ) :
    weston_fade_run a mem w surface done data now =
      ({ surface := surface, spring := controller_spring mem.spring now, done := done,
         data := data },
       { surfaces := Function.update w.surfaces surface
           { w.surfaces surface with
             alpha := 0
             geometry_dirty := true
             destroy_listeners := (w.surfaces surface).destroy_listeners ++ [a] }
         animation_list := a :: w.animation_list
         repaints := w.repaints + 1
         done_calls := w.done_calls
         freed := w.freed }) := by
  have hnd := controller_spring_creation_tick mem.spring now
  have hup := weston_spring_update_now (controller_spring mem.spring now)
  have hf := weston_fade_frame_unsettled a
    { surface := surface, spring := controller_spring mem.spring now, done := done,
      data := data } w (controller_spring mem.spring now).timestamp hnd
  unfold weston_fade_run
  simp only
  rw [hf]
  simp only [hup, surface_add_destroy_listener, Function.update_same, Function.update_idem]
  have hc : (controller_spring mem.spring now).current = 0 := rfl
  simp only [hc]
  norm_num

/-- What `weston_zoom_run` leaves in the world. -/
theorem weston_zoom_run_world (a : ℕ) (mem : weston_zoom) (w : animation_world) (surface : ℕ)
    (start stop : ℚ) (done : Option ℕ) (data now : ℕ) :
    (weston_zoom_run a mem w surface start stop done data now).2 =
      { surfaces := Function.update w.surfaces surface
          { w.surfaces surface with
            alpha := 0
            geometry_dirty := true
            transformation_list := a :: (w.surfaces surface).transformation_list
            destroy_listeners := (w.surfaces surface).destroy_listeners ++ [a] }
        animation_list := a :: w.animation_list
        repaints := w.repaints + 1
        done_calls := w.done_calls
        freed := w.freed } := by
  have hnd := controller_spring_creation_tick mem.spring now
  have hup := weston_spring_update_now (controller_spring mem.spring now)
  have hz := fun w1 => weston_zoom_frame_unsettled a
    { surface := surface, spring := controller_spring mem.spring now,
      transform_matrix := mem.transform_matrix, start := start, stop := stop, done := done,
      data := data } w1 (controller_spring mem.spring now).timestamp hnd
  unfold weston_zoom_run
  simp only
  rw [hz]
  simp only
  simp only [hup, surface_add_destroy_listener, Function.update_same, Function.update_idem]
  have hc : (controller_spring mem.spring now).current = 0 := rfl
  simp only [hc]
  norm_num

theorem weston_zoom_run_spring (a : ℕ) (mem : weston_zoom) (w : animation_world) (surface : ℕ)
    (start stop : ℚ) (done : Option ℕ) (data now : ℕ) :
    (weston_zoom_run a mem w surface start stop done data now).1.spring =
      controller_spring mem.spring now := by
  have hnd := controller_spring_creation_tick mem.spring now
  have hup := weston_spring_update_now (controller_spring mem.spring now)
  have hz := fun w1 => weston_zoom_frame_unsettled a
    { surface := surface, spring := controller_spring mem.spring now,
      transform_matrix := mem.transform_matrix, start := start, stop := stop, done := done,
      data := data } w1 (controller_spring mem.spring now).timestamp hnd
  unfold weston_zoom_run
  simp only
  rw [hz]
  simp only [hup]

/-- A tick of the controller spring whose update brings it to a settled step count. -/
theorem controller_done_of_steps (spring : weston_spring) (now msecs n : ℕ)
    (hn : (u32_sub msecs now - 1) / 4 = n)
    (hd : weston_spring_done (weston_spring_update_step^[n] ⟨200, 700, 0, 0, 1, 0⟩) = true) :
    weston_spring_done (weston_spring_update (controller_spring spring now) msecs) = true := by
  have hts : (controller_spring spring now).timestamp = now := rfl
  rw [weston_spring_update_eq_iterate, weston_spring_update_steps_eq, hts, hn,
    done_iterate_controller]
  exact hd

theorem weston_fade_destroy_alpha (a : ℕ) (fade : weston_fade) (w : animation_world) (s : ℕ) :
    ((weston_fade_destroy a fade w).surfaces s).alpha = (w.surfaces s).alpha := by
  unfold weston_fade_destroy
  by_cases hs : s = fade.surface
  · subst hs
    simp only [Function.update_same]
  · simp only [Function.update_noteq hs]

/-- A fade created by `weston_fade_run` and then ticked at a clock value at which its spring
is found settled: the tick requests no repaint and leaves `alpha` at `0`. -/
theorem weston_fade_run_settled_tick (a : ℕ) (mem : weston_fade) (w : animation_world)
    (surface : ℕ) (done : Option ℕ) (data now msecs : ℕ)
    (hd : weston_spring_done
      (weston_spring_update (controller_spring mem.spring now) msecs) = true) :
    (weston_fade_frame a (weston_fade_run a mem w surface done data now).1
        (weston_fade_run a mem w surface done data now).2 msecs).2.repaints =
        (weston_fade_run a mem w surface done data now).2.repaints ∧
      ((weston_fade_frame a (weston_fade_run a mem w surface done data now).1
        (weston_fade_run a mem w surface done data now).2 msecs).2.surfaces surface).alpha = 0 := by
  rw [weston_fade_run_eq]
  have hf := fun w1 => weston_fade_frame_settled a
    { surface := surface, spring := controller_spring mem.spring now, done := done,
      data := data } w1 msecs hd
  simp only [hf, weston_fade_destroy_alpha, Function.update_same]
  exact ⟨rfl, trivial⟩

/-- The same for a zoom created by `weston_zoom_run`. -/
theorem weston_zoom_run_settled_tick (a : ℕ) (mem : weston_zoom) (w : animation_world)
    (surface : ℕ) (start stop : ℚ) (done : Option ℕ) (data now msecs : ℕ)
    (hd : weston_spring_done
      (weston_spring_update (controller_spring mem.spring now) msecs) = true) :
    (weston_zoom_frame a (weston_zoom_run a mem w surface start stop done data now).1
        (weston_zoom_run a mem w surface start stop done data now).2 msecs).2.repaints =
      (weston_zoom_run a mem w surface start stop done data now).2.repaints := by
  have hz := weston_zoom_frame_settled a
    (weston_zoom_run a mem w surface start stop done data now).1
    (weston_zoom_run a mem w surface start stop done data now).2 msecs
    (by rw [weston_zoom_run_spring]; exact hd)
  rw [hz]
  rfl

/-! ### C13 -/

/-- Counterexample to C13 as stated: a fade (and a zoom) created at clock value `0` and
ticked at `801` finds its spring settled (after 200 steps); that tick requests no repaint:
the count of `weston_compositor_schedule_repaint` calls stays as the creation left it. -/
theorem c13_tick_repaint_counterexample :
    weston_spring_done (weston_spring_update
        (controller_spring (⟨0, ⟨0, 0, 0, 0, 0, 0⟩, none, 0⟩ : weston_fade).spring 0) 801) = true ∧
      (weston_fade_frame 7
          (weston_fade_run 7 ⟨0, ⟨0, 0, 0, 0, 0, 0⟩, none, 0⟩
            ⟨fun _ => ⟨1, false, 100, 100, [], []⟩, [], 0, [], []⟩ 1 none 0 0).1
          (weston_fade_run 7 ⟨0, ⟨0, 0, 0, 0, 0, 0⟩, none, 0⟩
            ⟨fun _ => ⟨1, false, 100, 100, [], []⟩, [], 0, [], []⟩ 1 none 0 0).2 801).2.repaints =
        (weston_fade_run 7 ⟨0, ⟨0, 0, 0, 0, 0, 0⟩, none, 0⟩
          ⟨fun _ => ⟨1, false, 100, 100, [], []⟩, [], 0, [], []⟩ 1 none 0 0).2.repaints ∧
      (weston_zoom_frame 7
          (weston_zoom_run 7 ⟨0, ⟨0, 0, 0, 0, 0, 0⟩, [], 0, 0, none, 0⟩
            ⟨fun _ => ⟨1, false, 100, 100, [], []⟩, [], 0, [], []⟩ 1 2 1 none 0 0).1
          (weston_zoom_run 7 ⟨0, ⟨0, 0, 0, 0, 0, 0⟩, [], 0, 0, none, 0⟩
            ⟨fun _ => ⟨1, false, 100, 100, [], []⟩, [], 0, [], []⟩ 1 2 1 none 0 0).2
          801).2.repaints =
        (weston_zoom_run 7 ⟨0, ⟨0, 0, 0, 0, 0, 0⟩, [], 0, 0, none, 0⟩
          ⟨fun _ => ⟨1, false, 100, 100, [], []⟩, [], 0, [], []⟩ 1 2 1 none 0 0).2.repaints := by
  have h801 : (u32_sub 801 0 - 1) / 4 = 200 := by norm_num [u32_sub]
  have hd := controller_done_of_steps ⟨0, 0, 0, 0, 0, 0⟩ 0 801 200 h801 controller_done_200
  exact ⟨hd,
    (weston_fade_run_settled_tick 7 ⟨0, ⟨0, 0, 0, 0, 0, 0⟩, none, 0⟩ _ 1 none 0 0 801 hd).1,
    weston_zoom_run_settled_tick 7 ⟨0, ⟨0, 0, 0, 0, 0, 0⟩, [], 0, 0, none, 0⟩ _ 1 2 1 none 0 0
      801 hd⟩

/-- C13 (amended): every tick of `weston_zoom_frame` and of `weston_fade_frame` leaves the
surface's geometry dirty flag set; it requests a compositor repaint exactly when the spring
is not found settled on that tick, and requests none itself on the tick that tears the
animation down. -/
theorem c13_tick_dirty_repaint (a : ℕ) (zoom : weston_zoom) (fade : weston_fade)
    (w : animation_world) (msecs : ℕ) :
    ((weston_zoom_frame a zoom w msecs).2.surfaces zoom.surface).geometry_dirty = true ∧
      (weston_zoom_frame a zoom w msecs).2.repaints =
        (if weston_spring_done (weston_spring_update zoom.spring msecs) then w.repaints
         else w.repaints + 1) ∧
      ((weston_fade_frame a fade w msecs).2.surfaces fade.surface).geometry_dirty = true ∧
      (weston_fade_frame a fade w msecs).2.repaints =
        (if weston_spring_done (weston_spring_update fade.spring msecs) then w.repaints
         else w.repaints + 1) := by
  refine ⟨?_, ?_, ?_, ?_⟩
  · cases h : weston_spring_done (weston_spring_update zoom.spring msecs) with
    | true => simp [weston_zoom_frame_settled _ _ _ _ h, weston_zoom_destroy]
    | false => simp [weston_zoom_frame_unsettled _ _ _ _ h]
  · cases h : weston_spring_done (weston_spring_update zoom.spring msecs) with
    | true => simp [weston_zoom_frame_settled _ _ _ _ h, weston_zoom_destroy]
    | false => simp [weston_zoom_frame_unsettled _ _ _ _ h]
  · cases h : weston_spring_done (weston_spring_update fade.spring msecs) with
    | true => simp [weston_fade_frame_settled _ _ _ _ h, weston_fade_destroy]
    | false => simp [weston_fade_frame_unsettled _ _ _ _ h]
  · cases h : weston_spring_done (weston_spring_update fade.spring msecs) with
    | true => simp [weston_fade_frame_settled _ _ _ _ h, weston_fade_destroy]
    | false => simp [weston_fade_frame_unsettled _ _ _ _ h]

/-! ### C14 -/

/-- C14: on a tick that does not tear the animation down, the alpha written by
`weston_fade_frame` is `clamp(spring.current, 0, 1)`, so it lies in `[0, 1]`, and the alpha
written by `weston_zoom_frame` is `min(spring.current, 1)`, so it is at most `1` and equals
`1` whenever `spring.current ≥ 1` (spring values after the tick's update, read as exact
rationals). -/
theorem c14_alpha_range (a : ℕ) (zoom : weston_zoom) (fade : weston_fade)
    (w : animation_world) (msecs : ℕ)
    (hz : weston_spring_done (weston_spring_update zoom.spring msecs) = false)
    (hf : weston_spring_done (weston_spring_update fade.spring msecs) = false) :
    ((weston_fade_frame a fade w msecs).2.surfaces fade.surface).alpha =
        max 0 (min (weston_spring_update fade.spring msecs).current 1) ∧
      0 ≤ ((weston_fade_frame a fade w msecs).2.surfaces fade.surface).alpha ∧
      ((weston_fade_frame a fade w msecs).2.surfaces fade.surface).alpha ≤ 1 ∧
      ((weston_zoom_frame a zoom w msecs).2.surfaces zoom.surface).alpha =
        min (weston_spring_update zoom.spring msecs).current 1 ∧
      ((weston_zoom_frame a zoom w msecs).2.surfaces zoom.surface).alpha ≤ 1 ∧
      (1 ≤ (weston_spring_update zoom.spring msecs).current →
        ((weston_zoom_frame a zoom w msecs).2.surfaces zoom.surface).alpha = 1) := by
  have hfa : ((weston_fade_frame a fade w msecs).2.surfaces fade.surface).alpha =
      max 0 (min (weston_spring_update fade.spring msecs).current 1) := by
    rw [weston_fade_frame_unsettled a fade w msecs hf]
    simp only [Function.update_same]
    by_cases h1 : (weston_spring_update fade.spring msecs).current > 1
    · rw [if_pos h1, min_eq_right h1.le, max_eq_right zero_le_one]
    · rw [if_neg h1, min_eq_left (not_lt.mp h1)]
      by_cases h0 : (weston_spring_update fade.spring msecs).current < 0
      · rw [if_pos h0, max_eq_left h0.le]
      · rw [if_neg h0, max_eq_right (not_lt.mp h0)]
  have hza : ((weston_zoom_frame a zoom w msecs).2.surfaces zoom.surface).alpha =
      min (weston_spring_update zoom.spring msecs).current 1 := by
    rw [weston_zoom_frame_unsettled a zoom w msecs hz]
    simp only [Function.update_same]
    by_cases h1 : (weston_spring_update zoom.spring msecs).current > 1
    · rw [if_pos h1, min_eq_right h1.le]
    · rw [if_neg h1, min_eq_left (not_lt.mp h1)]
  refine ⟨hfa, ?_, ?_, hza, ?_, ?_⟩
  · rw [hfa]
    exact le_max_left _ _
  · rw [hfa]
    exact max_le zero_le_one (min_le_right _ _)
  · rw [hza]
    exact min_le_right _ _
  · intro h
    rw [hza]
    exact min_eq_right h

/-- Witness for C14: a zoom and a fade whose springs are `0.5` past the target and still
moving, ticked at the clock value of their timestamp. -/
theorem c14_alpha_range_witness :
    ((weston_fade_frame 7 ⟨1, ⟨200, 700, 3 / 2, 1, 1, 0⟩, none, 0⟩
          ⟨fun _ => ⟨0, false, 100, 100, [], []⟩, [], 0, [], []⟩ 0).2.surfaces
          (⟨1, ⟨200, 700, 3 / 2, 1, 1, 0⟩, none, 0⟩ : weston_fade).surface).alpha =
        max 0 (min (weston_spring_update
          (⟨1, ⟨200, 700, 3 / 2, 1, 1, 0⟩, none, 0⟩ : weston_fade).spring 0).current 1) ∧
      0 ≤ ((weston_fade_frame 7 ⟨1, ⟨200, 700, 3 / 2, 1, 1, 0⟩, none, 0⟩
          ⟨fun _ => ⟨0, false, 100, 100, [], []⟩, [], 0, [], []⟩ 0).2.surfaces
          (⟨1, ⟨200, 700, 3 / 2, 1, 1, 0⟩, none, 0⟩ : weston_fade).surface).alpha ∧
      ((weston_fade_frame 7 ⟨1, ⟨200, 700, 3 / 2, 1, 1, 0⟩, none, 0⟩
          ⟨fun _ => ⟨0, false, 100, 100, [], []⟩, [], 0, [], []⟩ 0).2.surfaces
          (⟨1, ⟨200, 700, 3 / 2, 1, 1, 0⟩, none, 0⟩ : weston_fade).surface).alpha ≤ 1 ∧
      ((weston_zoom_frame 7 ⟨1, ⟨200, 700, 3 / 2, 1, 1, 0⟩, [], 2, 1, none, 0⟩
          ⟨fun _ => ⟨0, false, 100, 100, [], []⟩, [], 0, [], []⟩ 0).2.surfaces
          (⟨1, ⟨200, 700, 3 / 2, 1, 1, 0⟩, [], 2, 1, none, 0⟩ : weston_zoom).surface).alpha =
        min (weston_spring_update
          (⟨1, ⟨200, 700, 3 / 2, 1, 1, 0⟩, [], 2, 1, none, 0⟩ : weston_zoom).spring 0).current 1 ∧
      ((weston_zoom_frame 7 ⟨1, ⟨200, 700, 3 / 2, 1, 1, 0⟩, [], 2, 1, none, 0⟩
          ⟨fun _ => ⟨0, false, 100, 100, [], []⟩, [], 0, [], []⟩ 0).2.surfaces
          (⟨1, ⟨200, 700, 3 / 2, 1, 1, 0⟩, [], 2, 1, none, 0⟩ : weston_zoom).surface).alpha ≤ 1 ∧
      (1 ≤ (weston_spring_update
          (⟨1, ⟨200, 700, 3 / 2, 1, 1, 0⟩, [], 2, 1, none, 0⟩ : weston_zoom).spring 0).current →
        ((weston_zoom_frame 7 ⟨1, ⟨200, 700, 3 / 2, 1, 1, 0⟩, [], 2, 1, none, 0⟩
          ⟨fun _ => ⟨0, false, 100, 100, [], []⟩, [], 0, [], []⟩ 0).2.surfaces
          (⟨1, ⟨200, 700, 3 / 2, 1, 1, 0⟩, [], 2, 1, none, 0⟩ : weston_zoom).surface).alpha = 1) :=
  c14_alpha_range 7 ⟨1, ⟨200, 700, 3 / 2, 1, 1, 0⟩, [], 2, 1, none, 0⟩
    ⟨1, ⟨200, 700, 3 / 2, 1, 1, 0⟩, none, 0⟩
    ⟨fun _ => ⟨0, false, 100, 100, [], []⟩, [], 0, [], []⟩ 0
    (by rw [weston_spring_update_now ⟨200, 700, 3 / 2, 1, 1, 0⟩]; decide!)
    (by rw [weston_spring_update_now ⟨200, 700, 3 / 2, 1, 1, 0⟩]; decide!)

/-! ### C18 -/

/-- Counterexample to C16 as stated: fade `A` (at address `10`) is created before fade `B`
(at address `20`) on the same compositor, yet `B` comes first in `animation_list`. -/
theorem c16_animation_order_counterexample :
    (weston_fade_run 20 ⟨0, ⟨0, 0, 0, 0, 0, 0⟩, none, 0⟩
        (weston_fade_run 10 ⟨0, ⟨0, 0, 0, 0, 0, 0⟩, none, 0⟩
          ⟨fun _ => ⟨1, false, 100, 100, [], []⟩, [], 0, [], []⟩ 1 none 0 0).2
        1 none 0 5).2.animation_list = [20, 10] ∧
      List.indexOf 20 ([20, 10] : List ℕ) < List.indexOf 10 ([20, 10] : List ℕ) := by
  rw [weston_fade_run_eq, weston_fade_run_eq]
  exact ⟨rfl, by decide⟩

/-- C16 (amended): `weston_zoom_run` and `weston_fade_run` link the new animation in at the
head of the compositor's `animation_list`; so if `A` is created before `B`, then `B`
precedes `A` in the list as traversed from its head. -/
theorem c16_animation_order (a b : ℕ) (memz : weston_zoom) (memf : weston_fade)
    (w : animation_world) (surface surface2 : ℕ) (start stop : ℚ) (done done2 : Option ℕ)
    (data data2 now now2 : ℕ) :
    (weston_zoom_run a memz w surface start stop done data now).2.animation_list =
        a :: w.animation_list ∧
      (weston_fade_run a memf w surface done data now).2.animation_list =
        a :: w.animation_list ∧
      (weston_fade_run b memf
          (weston_zoom_run a memz w surface start stop done data now).2
          surface2 done2 data2 now2).2.animation_list = b :: a :: w.animation_list ∧
      (weston_zoom_run b memz
          (weston_fade_run a memf w surface done data now).2
          surface2 start stop done2 data2 now2).2.animation_list = b :: a :: w.animation_list := by
  refine ⟨?_, ?_, ?_, ?_⟩
  · rw [weston_zoom_run_world]
  · rw [weston_fade_run_eq]
  · rw [weston_fade_run_eq, weston_zoom_run_world]
  · rw [weston_zoom_run_world, weston_fade_run_eq]

/-! ### C17 -/

theorem controller_energy_le (m N : ℕ) (hm : N ≤ m) :
    controller_energy (weston_spring_update_step^[m] ⟨200, 700, 0, 0, 1, 0⟩) ≤
      (9299 / 10000) ^ N * (1 / 500) := by
  rw [controller_energy_iterate m _ rfl rfl rfl]
  have hpow : ((9299 : ℚ) / 10000) ^ m ≤ (9299 / 10000) ^ N :=
    pow_le_pow_of_le_one (by norm_num) (by norm_num) hm
  have h0 : controller_energy ⟨200, 700, 0, 0, 1, 0⟩ = 1 / 500 := by
    norm_num [controller_energy]
  rw [h0]
  exact mul_le_mul_of_nonneg_right hpow (by norm_num)

theorem controller_current_le (m : ℕ) :
    (weston_spring_update_step^[m] ⟨200, 700, 0, 0, 1, 0⟩).current ≤ 10157 / 10000 := by
  by_cases h : 130 ≤ m
  · have hE := controller_energy_le m 130 h
    have hnum : ((9299 : ℚ) / 10000) ^ 130 * (1 / 500) ≤ 18 / 10 ^ 8 := by norm_num
    have hE2 := hE.trans hnum
    unfold controller_energy at hE2
    nlinarith [sq_nonneg (19279 / 10000 *
        (1 - (weston_spring_update_step^[m] ⟨200, 700, 0, 0, 1, 0⟩).current) -
      2 * (9299 / 10000) * (1 - (weston_spring_update_step^[m] ⟨200, 700, 0, 0, 1, 0⟩).previous)),
      sq_nonneg (1 - (weston_spring_update_step^[m] ⟨200, 700, 0, 0, 1, 0⟩).current + 157 / 10000)]
  · have hfin : ∀ i < 130,
        (weston_spring_update_step^[i] ⟨200, 700, 0, 0, 1, 0⟩).current ≤ 10157 / 10000 := by
      decide!
    exact hfin m (by omega)

/-- Counterexample to C17 as stated: after `114` integration steps the controller spring,
started at rest at `0`, is past its target `1` (by more than `0.0156`). -/
theorem c17_overshoot_counterexample :
    (controller_spring ⟨0, 0, 0, 0, 0, 0⟩ 0).previous = 0 ∧
      (controller_spring ⟨0, 0, 0, 0, 0, 0⟩ 0).current = 0 ∧
      (1 : ℚ) + 156 / 10000 <
        (weston_spring_update_step^[114] (controller_spring ⟨0, 0, 0, 0, 0, 0⟩ 0)).current := by
  decide!

/-- C17 (amended): the controller spring (`init(s, 200, 0, 1)`, friction `700`, started at
rest) overshoots its target by less than `1.57 %`: after every number of integration steps
`spring.current ≤ 1.0157`. -/
theorem c17_overshoot_bound (spring : weston_spring) (now n : ℕ) :
    (weston_spring_update_step^[n] (controller_spring spring now)).current ≤ 10157 / 10000 := by
  rw [(iterate_step_fields n (controller_spring spring now) ⟨200, 700, 0, 0, 1, 0⟩
    rfl rfl rfl rfl rfl).2.2.1]
  exact controller_current_le n

/-! ### C15 -/

/-- One notification either unlinks the notified address `l` from a list or leaves the
list alone, appends at most `l` to the trace of `free` calls, and appends only
done-callback calls made for `l`. -/
theorem destroy_listener_notify_spec (controllers : ℕ → Option animation_controller)
    (w : animation_world) (l : ℕ) :
    ((destroy_listener_notify controllers w l).animation_list = w.animation_list.erase l ∨
        (destroy_listener_notify controllers w l).animation_list = w.animation_list) ∧
      (∀ s, ((destroy_listener_notify controllers w l).surfaces s).destroy_listeners =
          (w.surfaces s).destroy_listeners.erase l ∨
        ((destroy_listener_notify controllers w l).surfaces s).destroy_listeners =
          (w.surfaces s).destroy_listeners) ∧
      (∀ s, ((destroy_listener_notify controllers w l).surfaces s).transformation_list =
          (w.surfaces s).transformation_list.erase l ∨
        ((destroy_listener_notify controllers w l).surfaces s).transformation_list =
          (w.surfaces s).transformation_list) ∧
      ((destroy_listener_notify controllers w l).freed = w.freed ++ [l] ∨
        (destroy_listener_notify controllers w l).freed = w.freed) ∧
      ∃ calls, (destroy_listener_notify controllers w l).done_calls = w.done_calls ++ calls ∧
        ∀ d ∈ calls, d.controller = l := by
  unfold destroy_listener_notify
  cases hc : controllers l with
  | none =>
    exact ⟨Or.inr rfl, fun _ => Or.inr rfl, fun _ => Or.inr rfl, Or.inr rfl, [], by simp, by simp⟩
  | some c =>
    cases c with
    | zoom z =>
      simp only [weston_zoom_destroy]
      refine ⟨Or.inl trivial, ?_, ?_, Or.inl trivial, _, rfl, ?_⟩
      · intro s
        by_cases hs : s = z.surface
        · subst hs
          simp only [Function.update_same, true_or]
        · simp only [Function.update_noteq hs, or_true]
      · intro s
        by_cases hs : s = z.surface
        · subst hs
          simp only [Function.update_same, true_or]
        · simp only [Function.update_noteq hs, or_true]
      · intro d hd
        cases hdone : z.done with
        | none => simp [hdone] at hd
        | some f =>
          simp only [hdone, List.mem_singleton] at hd
          rw [hd]
    | fade f =>
      simp only [weston_fade_destroy]
      refine ⟨Or.inl trivial, ?_, ?_, Or.inl trivial, _, rfl, ?_⟩
      · intro s
        by_cases hs : s = f.surface
        · subst hs
          simp only [Function.update_same, true_or]
        · simp only [Function.update_noteq hs, or_true]
      · intro s
        by_cases hs : s = f.surface
        · subst hs
          simp only [Function.update_same, or_true]
        · simp only [Function.update_noteq hs, or_true]
      · intro d hd
        cases hdone : f.done with
        | none => simp [hdone] at hd
        | some g =>
          simp only [hdone, List.mem_singleton] at hd
          rw [hd]

theorem erase_or_same_mem {X X' : List ℕ} {a l : ℕ} (h : X' = X.erase l ∨ X' = X)
    (hne : a ≠ l) : a ∈ X' ↔ a ∈ X := by
  rcases h with h | h <;> rw [h]
  exact List.mem_erase_of_ne hne

theorem erase_or_same_nodup {X X' : List ℕ} {l : ℕ} (h : X' = X.erase l ∨ X' = X)
    (hn : X.Nodup) : X'.Nodup := by
  rcases h with h | h <;> rw [h]
  · exact hn.erase l
  · exact hn

theorem erase_or_same_not_mem {X X' : List ℕ} {a l : ℕ} (h : X' = X.erase l ∨ X' = X)
    (ha : a ∉ X) : a ∉ X' := by
  rcases h with h | h <;> rw [h]
  · exact fun hm => ha (List.mem_of_mem_erase hm)
  · exact ha

/-- Notifications of listeners other than `a` neither unlink nor link `a` in a list that
each notification can only shrink by the notified address, and keep it duplicate-free. -/
theorem emit_list_others (controllers : ℕ → Option animation_controller)
    (X : animation_world → List ℕ)
    (hX : ∀ w l, X (destroy_listener_notify controllers w l) = (X w).erase l ∨
      X (destroy_listener_notify controllers w l) = X w)
    (a : ℕ) (L : List ℕ) (ha : a ∉ L) (w : animation_world) :
    (a ∈ X (L.foldl (destroy_listener_notify controllers) w) ↔ a ∈ X w) ∧
      ((X w).Nodup → (X (L.foldl (destroy_listener_notify controllers) w)).Nodup) := by
  induction L generalizing w with
  | nil => exact ⟨Iff.rfl, id⟩
  | cons l L ih =>
    rw [List.foldl_cons]
    have hne : a ≠ l := fun h => ha (h ▸ List.mem_cons_self _ _)
    obtain ⟨ih1, ih2⟩ := ih (fun h => ha (List.mem_cons_of_mem _ h))
      (destroy_listener_notify controllers w l)
    exact ⟨ih1.trans (erase_or_same_mem (hX w l) hne),
      fun hn => ih2 (erase_or_same_nodup (hX w l) hn)⟩

theorem emit_list_shrinks (controllers : ℕ → Option animation_controller)
    (X : animation_world → List ℕ)
    (hX : ∀ w l, X (destroy_listener_notify controllers w l) = (X w).erase l ∨
      X (destroy_listener_notify controllers w l) = X w)
    (a : ℕ) (L : List ℕ) (w : animation_world) (ha : a ∉ X w) :
    a ∉ X (L.foldl (destroy_listener_notify controllers) w) := by
  induction L generalizing w with
  | nil => exact ha
  | cons l L ih =>
    rw [List.foldl_cons]
    exact ih _ (erase_or_same_not_mem (hX w l) ha)

/-- Notifications of listeners other than `a` add no `free` of `a` and no done-callback
call for `a` to the traces. -/
theorem emit_traces_others (controllers : ℕ → Option animation_controller)
    (a : ℕ) (L : List ℕ) (ha : a ∉ L) (w : animation_world) :
    (L.foldl (destroy_listener_notify controllers) w).freed.count a = w.freed.count a ∧
      (L.foldl (destroy_listener_notify controllers) w).done_calls.filter
          (fun d => decide (d.controller = a)) =
        w.done_calls.filter (fun d => decide (d.controller = a)) := by
  induction L generalizing w with
  | nil => exact ⟨rfl, rfl⟩
  | cons l L ih =>
    rw [List.foldl_cons]
    have hne : l ≠ a := fun h => ha (h ▸ List.mem_cons_self _ _)
    obtain ⟨ih1, ih2⟩ := ih (fun h => ha (List.mem_cons_of_mem _ h))
      (destroy_listener_notify controllers w l)
    obtain ⟨_, _, _, hfreed, calls, hcalls, hctrl⟩ := destroy_listener_notify_spec controllers w l
    constructor
    · rw [ih1]
      rcases hfreed with h | h <;> rw [h]
      rw [List.count_append, List.count_singleton', if_neg hne, Nat.add_zero]
    · rw [ih2, hcalls, List.filter_append]
      have : calls.filter (fun d => decide (d.controller = a)) = [] := by
        rw [List.filter_eq_nil_iff]
        intro d hd
        rw [hctrl d hd]
        simpa using hne
      rw [this, List.append_nil]

/-- The notification of the controller's own listener is its teardown. -/
theorem destroy_listener_notify_self (controllers : ℕ → Option animation_controller)
    (w : animation_world) (a : ℕ) (c : animation_controller) (hc : controllers a = some c) :
    (destroy_listener_notify controllers w a).animation_list = w.animation_list.erase a ∧
      ((destroy_listener_notify controllers w a).surfaces (controller_surface c)).destroy_listeners =
        (w.surfaces (controller_surface c)).destroy_listeners.erase a ∧
      ((∃ z, c = animation_controller.zoom z) →
        ((destroy_listener_notify controllers w a).surfaces
            (controller_surface c)).transformation_list =
          (w.surfaces (controller_surface c)).transformation_list.erase a) ∧
      (destroy_listener_notify controllers w a).freed = w.freed ++ [a] ∧
      (destroy_listener_notify controllers w a).done_calls =
        w.done_calls ++
          (match controller_done c with
           | some f => [⟨f, a, controller_data c⟩]
           | none => []) := by
  unfold destroy_listener_notify
  rw [hc]
  cases c with
  | zoom z =>
    simp only [weston_zoom_destroy, controller_surface, controller_done, controller_data,
      Function.update_same]
    exact ⟨trivial, trivial, fun _ => trivial, trivial, trivial⟩
  | fade f =>
    simp only [weston_fade_destroy, controller_surface, controller_done, controller_data,
      Function.update_same]
    refine ⟨trivial, trivial, ?_, trivial, trivial⟩
    rintro ⟨z, hz⟩
    cases hz

/-- C15: for a controller (zoom or fade) living at address `a`, linked into the
active-animation list and into the destroy listeners of its surface (the lists, being
intrusive, hold an address at most once), firing the surface's destroy notification tears
it down exactly once: `a` is passed to `free` exactly once more, it is no longer in the
animation list nor among the surface's destroy listeners (nor, for a zoom, in the transform
chain), so neither a frame tick nor a destroy notification reaches it again, and its
done-callback is called exactly once if one was supplied and not at all otherwise. -/
theorem c15_destroy_teardown_once (controllers : ℕ → Option animation_controller)
    (w : animation_world) (a : ℕ) (c : animation_controller)
    (hc : controllers a = some c)
    (_ha : a ∈ w.animation_list)
    (hl : a ∈ (w.surfaces (controller_surface c)).destroy_listeners)
    (han : w.animation_list.Nodup)
    (hln : (w.surfaces (controller_surface c)).destroy_listeners.Nodup)
    (htn : (w.surfaces (controller_surface c)).transformation_list.Nodup) :
    (surface_destroy_emit controllers w (controller_surface c)).freed.count a =
        w.freed.count a + 1 ∧
      a ∉ (surface_destroy_emit controllers w (controller_surface c)).animation_list ∧
      a ∉ ((surface_destroy_emit controllers w (controller_surface c)).surfaces
        (controller_surface c)).destroy_listeners ∧
      ((∃ z, c = animation_controller.zoom z) →
        a ∉ ((surface_destroy_emit controllers w (controller_surface c)).surfaces
          (controller_surface c)).transformation_list) ∧
      (surface_destroy_emit controllers w (controller_surface c)).done_calls.filter
          (fun d => decide (d.controller = a)) =
        w.done_calls.filter (fun d => decide (d.controller = a)) ++
          (match controller_done c with
           | some f => [⟨f, a, controller_data c⟩]
           | none => []) := by
  obtain ⟨L1, L2, hL⟩ := List.append_of_mem hl
  have hnd : (L1 ++ a :: L2).Nodup := hL ▸ hln
  have ha1 : a ∉ L1 := fun h => (List.nodup_append.mp hnd).2.2 h (List.mem_cons_self _ _)
  have ha2 : a ∉ L2 := (List.nodup_cons.mp (List.nodup_append.mp hnd).2.1).1
  have hXa : ∀ w l, (destroy_listener_notify controllers w l).animation_list =
      w.animation_list.erase l ∨
      (destroy_listener_notify controllers w l).animation_list = w.animation_list :=
    fun w l => (destroy_listener_notify_spec controllers w l).1
  have hXl : ∀ w l,
      ((destroy_listener_notify controllers w l).surfaces (controller_surface c)).destroy_listeners =
        (w.surfaces (controller_surface c)).destroy_listeners.erase l ∨
      ((destroy_listener_notify controllers w l).surfaces (controller_surface c)).destroy_listeners =
        (w.surfaces (controller_surface c)).destroy_listeners :=
    fun w l => (destroy_listener_notify_spec controllers w l).2.1 _
  have hXt : ∀ w l,
      ((destroy_listener_notify controllers w l).surfaces
          (controller_surface c)).transformation_list =
        (w.surfaces (controller_surface c)).transformation_list.erase l ∨
      ((destroy_listener_notify controllers w l).surfaces
          (controller_surface c)).transformation_list =
        (w.surfaces (controller_surface c)).transformation_list :=
    fun w l => (destroy_listener_notify_spec controllers w l).2.2.1 _
  unfold surface_destroy_emit
  rw [hL, List.foldl_append, List.foldl_cons]
  obtain ⟨s1, s2, s3, s4, s5⟩ := destroy_listener_notify_self controllers
    (L1.foldl (destroy_listener_notify controllers) w) a c hc
  obtain ⟨t1, t2⟩ := emit_traces_others controllers a L1 ha1 w
  obtain ⟨u1, u2⟩ := emit_traces_others controllers a L2 ha2
    (destroy_listener_notify controllers (L1.foldl (destroy_listener_notify controllers) w) a)
  refine ⟨?_, ?_, ?_, ?_, ?_⟩
  · rw [u1, s4, List.count_append, t1, List.count_singleton', if_pos rfl]
  · apply emit_list_shrinks controllers (fun w => w.animation_list) hXa
    show a ∉ (destroy_listener_notify controllers _ a).animation_list
    rw [s1]
    exact ((emit_list_others controllers (fun w => w.animation_list) hXa a L1 ha1 w).2
      han).not_mem_erase
  · apply emit_list_shrinks controllers
      (fun w => (w.surfaces (controller_surface c)).destroy_listeners) hXl
    show a ∉ ((destroy_listener_notify controllers _ a).surfaces
      (controller_surface c)).destroy_listeners
    rw [s2]
    exact ((emit_list_others controllers
      (fun w => (w.surfaces (controller_surface c)).destroy_listeners) hXl a L1 ha1 w).2
      hln).not_mem_erase
  · intro hz
    apply emit_list_shrinks controllers
      (fun w => (w.surfaces (controller_surface c)).transformation_list) hXt
    show a ∉ ((destroy_listener_notify controllers _ a).surfaces
      (controller_surface c)).transformation_list
    rw [s3 hz]
    exact ((emit_list_others controllers
      (fun w => (w.surfaces (controller_surface c)).transformation_list) hXt a L1 ha1 w).2
      htn).not_mem_erase
  · rw [u2, s5, List.filter_append, t2]
    congr 1
    cases controller_done c with
    | none => rfl
    | some f => simp

/-- Witness for C15: a zoom at address `7` on surface `1`, with done-callback `3` and data
`4`, alone in the lists. -/
theorem c15_destroy_teardown_once_witness :
    (surface_destroy_emit
        (fun l => if l = 7 then
          some (animation_controller.zoom ⟨1, ⟨200, 700, 1 / 2, 1 / 2, 1, 0⟩, [], 2, 1, some 3, 4⟩)
          else none)
        ⟨fun _ => ⟨1 / 2, false, 100, 100, [7], [7]⟩, [7], 0, [], []⟩ 1).freed.count 7 =
        ([] : List ℕ).count 7 + 1 ∧
      7 ∉ (surface_destroy_emit
        (fun l => if l = 7 then
          some (animation_controller.zoom ⟨1, ⟨200, 700, 1 / 2, 1 / 2, 1, 0⟩, [], 2, 1, some 3, 4⟩)
          else none)
        ⟨fun _ => ⟨1 / 2, false, 100, 100, [7], [7]⟩, [7], 0, [], []⟩ 1).animation_list ∧
      7 ∉ ((surface_destroy_emit
        (fun l => if l = 7 then
          some (animation_controller.zoom ⟨1, ⟨200, 700, 1 / 2, 1 / 2, 1, 0⟩, [], 2, 1, some 3, 4⟩)
          else none)
        ⟨fun _ => ⟨1 / 2, false, 100, 100, [7], [7]⟩, [7], 0, [], []⟩ 1).surfaces
          1).destroy_listeners ∧
      ((∃ z, animation_controller.zoom ⟨1, ⟨200, 700, 1 / 2, 1 / 2, 1, 0⟩, [], 2, 1, some 3, 4⟩ =
          animation_controller.zoom z) →
        7 ∉ ((surface_destroy_emit
          (fun l => if l = 7 then
            some (animation_controller.zoom
              ⟨1, ⟨200, 700, 1 / 2, 1 / 2, 1, 0⟩, [], 2, 1, some 3, 4⟩)
            else none)
          ⟨fun _ => ⟨1 / 2, false, 100, 100, [7], [7]⟩, [7], 0, [], []⟩ 1).surfaces
            1).transformation_list) ∧
      (surface_destroy_emit
        (fun l => if l = 7 then
          some (animation_controller.zoom ⟨1, ⟨200, 700, 1 / 2, 1 / 2, 1, 0⟩, [], 2, 1, some 3, 4⟩)
          else none)
        ⟨fun _ => ⟨1 / 2, false, 100, 100, [7], [7]⟩, [7], 0, [], []⟩ 1).done_calls.filter
          (fun d => decide (d.controller = 7)) =
        ([] : List done_call).filter (fun d => decide (d.controller = 7)) ++ [⟨3, 7, 4⟩] :=
  c15_destroy_teardown_once
    (fun l => if l = 7 then
      some (animation_controller.zoom ⟨1, ⟨200, 700, 1 / 2, 1 / 2, 1, 0⟩, [], 2, 1, some 3, 4⟩)
      else none)
    ⟨fun _ => ⟨1 / 2, false, 100, 100, [7], [7]⟩, [7], 0, [], []⟩ 7
    (animation_controller.zoom ⟨1, ⟨200, 700, 1 / 2, 1 / 2, 1, 0⟩, [], 2, 1, some 3, 4⟩)
    rfl (by simp) (by simp [controller_surface]) (by simp) (by simp [controller_surface])
    (by simp [controller_surface])

end Weston
